import Mathlib

/-!
Verification of the identifier-parsing-and-file-matching core of `src/linking.py`.

The Python module is shallowly embedded:
* strings are Lean `String`s, compared by code points as Python does
  (character predicates and lower-casing are modelled on the ASCII range,
  which covers every character class the program's regex and constants use);
* a spreadsheet cell (`obj_id_raw`) is a `PyCell`: a string, the pandas
  null `NaN`, or some other non-null non-string value;
* the filesystem seen by `os.path.isdir` / `os.listdir` / `os.path.isfile`
  is a `PyFS` value: a table of directories with their direct-children
  names, plus the set of regular-file paths;
* the regex `OBJ_RE = (\d+)\s*\/\s*(\d{4})\s*\/\s*(\d{3,4})\s+(\d+)` and
  `OBJ_RE.search` are embedded as an explicit greedy matcher with the one
  backtracking point the pattern has (the `{3,4}` counter); for this
  pattern greedy matching with that single fallback is exactly the regex
  engine's leftmost-match semantics, as argued at `matchAt` below.
-/

/-- Python `\d` on the inputs in question: an ASCII decimal digit. -/
def isPyDigit (c : Char) : Bool := c.isDigit

/-- Python `\s` (and `str.strip`'s default character class) on ASCII:
space, tab, newline, carriage return, vertical tab, form feed. -/
def isPySpace (c : Char) : Bool :=
  c = ' ' || c = '\t' || c = '\n' || c = '\r' || c = '\x0b' || c = '\x0c'

/-- Python `str.strip()`: remove leading and trailing whitespace. -/
def pyStrip (s : String) : String :=
  String.mk ((((s.toList.dropWhile isPySpace).reverse).dropWhile isPySpace).reverse)

/-- Python `str.lower()` (ASCII range, enough for the digit/dash prefixes
and the filename comparisons the program performs). -/
def pyLower (s : String) : String := String.mk (s.toList.map Char.toLower)

/-- Lexicographic (code-point) order on character lists, Python's string
order restricted to the comparisons the program makes. -/
def listLexLe : List Char → List Char → Bool
  | [], _ => true
  | _ :: _, [] => false
  | a :: as, b :: bs => if a = b then listLexLe as bs else decide (a < b)

/-- Python's `<=` on strings: lexicographic by code point. -/
def pyLe (s t : String) : Prop := listLexLe s.toList t.toList = true

instance : DecidableRel pyLe := fun a b => by unfold pyLe; infer_instance

/-- Python `sorted` on a list of strings.  `sorted` is a stable sort for a
total order; on strings equal elements are identical, so any correct sort
computes the same list, and an insertion sort is used here. -/
def pySorted (l : List String) : List String := l.insertionSort pyLe

/-- Python `os.path.join(a, b)` for the relative path components this
program joins (a root, a year name, a file name). -/
def ospJoin (a b : String) : String := a ++ "/" ++ b

/-- Position of the last '.' in a character list, if any. -/
def lastDotIdx (cs : List Char) : Option Nat :=
  (List.range cs.length).foldl
    (fun acc i => if cs.get? i = some '.' then some i else acc) none

/-- Python `os.path.splitext(name)[1]` for a basename (no separator):
the extension starts at the last dot, except that a dot with only dots
before it (a leading-dot file such as `.bashrc`) starts no extension. -/
def splitextExt (name : String) : String :=
  let cs := name.toList
  match lastDotIdx cs with
  | none => ""
  | some i => if (cs.take i).any (fun c => c ≠ '.') then String.mk (cs.drop i) else ""

/-- Python `os.path.basename(p)` for a POSIX path: the part after the
last '/'. -/
def ospBasename (p : String) : String :=
  String.mk (((p.toList.reverse).takeWhile (fun c => c ≠ '/')).reverse)

/-- A value sitting in the `obj_id_raw` spreadsheet column: a string, the
pandas null (`NaN`), or some other non-null non-string value (pandas cells
are dynamically typed; distinct non-string values are told apart by a
tag). -/
inductive PyCell where
  | str (s : String)
  | nan
  | other (tag : Nat)
deriving DecidableEq

/-- Whether a cell is a Python string (`isinstance(x, str)`). -/
def PyCell.isStr : PyCell → Bool
  | .str _ => true
  | _ => false

/-- The `ALLOWED_EXTS` constant of `linking.py`. -/
def ALLOWED_EXTS : List String := [".jpg", ".jpeg", ".png", ".tif", ".tiff", ".bmp"]

/-!  The regex matcher.

`OBJ_RE.search(raw)` scans start positions left to right and at each
position runs the pattern `(\d+)\s*/\s*(\d{4})\s*/\s*(\d{3,4})\s+(\d+)`
with greedy backtracking.  For this pattern plain greedy matching is
complete at every sub-pattern except `(\d{3,4})`:

* shortening a greedy `\d+` or `\s*` run leaves a digit (resp. a space)
  exactly where the following literal `/`, `\s`-class or `\d`-class
  element must match, and those classes are disjoint, so no shorter run
  can succeed where the maximal one fails;
* `\d{4}` has no choice at all;
* `\d{3,4}` tries four digits first, falling back to three — the single
  branch kept below;
* shortening the greedy `\s+` before `(\d+)` leaves a space where a digit
  is required, and shortening the final greedy `(\d+)` only changes the
  (unused) extent of group 4, never success.
-/

/-- Take the maximal digit run (group semantics of `(\d+)`), requiring it
to be non-empty. -/
def takeDigits1 (cs : List Char) : Option (List Char × List Char) :=
  if (cs.takeWhile isPyDigit).isEmpty then none
  else some (cs.takeWhile isPyDigit, cs.dropWhile isPyDigit)

/-- Take exactly four digits (`\d{4}`). -/
def take4Digits : List Char → Option (List Char × List Char)
  | a :: b :: c :: d :: r =>
    if isPyDigit a && isPyDigit b && isPyDigit c && isPyDigit d then
      some ([a, b, c, d], r)
    else none
  | _ => none

/-- Take exactly three digits (the `{3}` alternative of `\d{3,4}`). -/
def take3Digits : List Char → Option (List Char × List Char)
  | a :: b :: c :: r =>
    if isPyDigit a && isPyDigit b && isPyDigit c then
      some ([a, b, c], r)
    else none
  | _ => none

/-- Skip the maximal whitespace run (`\s*`). -/
def skipSpaces (cs : List Char) : List Char := cs.dropWhile isPySpace

/-- Take the maximal whitespace run (`\s+`), requiring it non-empty. -/
def takeSpaces1 (cs : List Char) : Option (List Char × List Char) :=
  if (cs.takeWhile isPySpace).isEmpty then none
  else some (cs.takeWhile isPySpace, cs.dropWhile isPySpace)

/-- Expect a literal '/'. -/
def expectSlash : List Char → Option (List Char)
  | '/' :: r => some r
  | _ => none

/-- The four captured groups of `OBJ_RE`. -/
structure ReGroups where
  g1 : List Char
  g2 : List Char
  g3 : List Char
  g4 : List Char
deriving DecidableEq

/-- Match the tail `\s+(\d+)` after the third number group, returning
groups 3 and 4. -/
def matchFinish (d3 : List Char) (r9 : List Char) : Option (List Char × List Char) :=
  (takeSpaces1 r9).bind (fun w => (takeDigits1 w.2).bind (fun q => some (d3, q.1)))

/-- Match `(\d{3,4})\s+(\d+)`: greedy, four digits first, falling back to
three when the four-digit branch cannot complete. -/
def matchTail34 (r8 : List Char) : Option (List Char × List Char) :=
  ((take4Digits r8).bind (fun p => matchFinish p.1 p.2)).orElse
    (fun _ => (take3Digits r8).bind (fun p => matchFinish p.1 p.2))

/-- Run `OBJ_RE` anchored at the start of `cs`. -/
def matchAt (cs : List Char) : Option ReGroups :=
  (takeDigits1 cs).bind (fun p1 =>
    (expectSlash (skipSpaces p1.2)).bind (fun r3 =>
      (take4Digits (skipSpaces r3)).bind (fun p2 =>
        (expectSlash (skipSpaces p2.2)).bind (fun r7 =>
          (matchTail34 (skipSpaces r7)).bind (fun p34 =>
            some ⟨p1.1, p2.1, p34.1, p34.2⟩)))))

/-- Model of `OBJ_RE.search`: try every start position left to right. -/
def searchRe : List Char → Option ReGroups
  | [] => none
  | c :: t =>
    match matchAt (c :: t) with
    | some g => some g
    | none => searchRe t

/-- Result dictionary of `parse_object_number`: the code returns only the
keys `year` and `base_prefix`. -/
structure ParsedKey where
  year : String
  base_prefix : String
deriving DecidableEq

/-- Body of `parse_object_number` on an actual string: `OBJ_RE.search`,
then `base_prefix = f"{g1}-{year}-{g3}-"`; group 4 (`_g4`, the series) is
discarded. -/
def parse_object_number_str (raw : String) : Option ParsedKey :=
  match searchRe raw.toList with
  | none => none
  | some g =>
    some { year := String.mk g.g2,
           base_prefix := String.mk g.g1 ++ "-" ++ String.mk g.g2 ++ "-" ++ String.mk g.g3 ++ "-" }

/-- Model of `parse_object_number(raw)`: `None` unless `raw` is a string,
then the regex search. -/
def parse_object_number : PyCell → Option ParsedKey
  | .str s => parse_object_number_str s
  | _ => none

example : parse_object_number (.str "1/1997/1063 0") =
    some { year := "1997", base_prefix := "1-1997-1063-" } := by decide

example : parse_object_number (.str "xx 1 / 1997 / 1063 2 yy") =
    some { year := "1997", base_prefix := "1-1997-1063-" } := by decide

example : parse_object_number (.str "3/2001/050 0") =
    some { year := "2001", base_prefix := "3-2001-050-" } := by decide

example : parse_object_number (.str "no number here") = none := by decide

example : parse_object_number (.str "1/1997/1063") = none := by decide

example : parse_object_number .nan = none := rfl

/-- The filesystem as the program observes it: a table of directory paths
with the names `os.listdir` yields for them (direct children only), and
the set of paths that are regular files. -/
structure PyFS where
  dirs : List (String × List String)
  files : List String
deriving DecidableEq

/-- Python `os.path.isdir`. -/
def PyFS.isDir (fs : PyFS) (p : String) : Bool := (fs.dirs.lookup p).isSome

/-- Python `os.listdir` (the program only calls it on an existing
directory). -/
def PyFS.listdir (fs : PyFS) (p : String) : List String := (fs.dirs.lookup p).getD []

/-- Python `os.path.isfile`. -/
def PyFS.isFile (fs : PyFS) (p : String) : Bool := fs.files.contains p

/-- Model of `find_matching_files_in_year(images_root, year, base_prefix)`: a
non-recursive scan of `<images_root>/<year>` for regular files with an
allowed extension whose name starts (case-insensitively) with the
prefix; result sorted. -/
def find_matching_files_in_year (fs : PyFS) (images_root year base_prefix : String) :
    List String :=
  if fs.isDir (ospJoin images_root year) then
    pySorted (((fs.listdir (ospJoin images_root year)).filter (fun name =>
        fs.isFile (ospJoin (ospJoin images_root year) name)
          && ALLOWED_EXTS.contains (pyLower (splitextExt name))
          && ((pyLower base_prefix).toList.isPrefixOf (pyLower name).toList))).map
      (fun name => ospJoin (ospJoin images_root year) name))
  else []

/-- One input row handed to `build_links_like_group`: the `obj_id_raw`
cell and its `_source_file` label. -/
structure MetaRow where
  obj_id_raw : PyCell
  source_file : String
deriving DecidableEq

/-- One row of the linked output DataFrame. -/
structure LinkedRow where
  obj_id_raw : PyCell
  year : String
  base_prefix : String
  images : List String
  image_count : Nat
  source_files : String
deriving DecidableEq

/-- One row of the misses report; the parse-failure miss dict carries no
`year`/`base_prefix` keys, modelled as `none`. -/
structure MissRow where
  obj_id_raw : PyCell
  year : Option String
  base_prefix : Option String
  reason : String
deriving DecidableEq

/-- Reason string of a parse-failure miss (line 158 of `linking.py`). -/
def reasonNoPattern : String :=
  "Keine Objektnummer im Format \x27g1/yyyy/g3 g4\x27 gefunden"

/-- Reason string of a no-files miss (line 170 of `linking.py`). -/
def reasonNoFiles (year bp : String) : String :=
  "Keine Dateien in " ++ year ++ "/ mit Präfix \x27" ++ bp ++ "\x27"

/-- The dedup key `(parsed["year"], parsed["base_prefix"].lower())`. -/
def keyOfParsed (p : ParsedKey) : String × String :=
  (p.year, pyLower (ParsedKey.base_prefix p))

/-- The key a cell contributes to `src_map`: line 149 parses only string
cells (and `parse_object_number` itself returns `None` on non-strings). -/
def keyOfCell (c : PyCell) : Option (String × String) :=
  (parse_object_number c).map keyOfParsed

/-- Add a source file to the set held for a key in `src_map`
(`setdefault(key, set()).add(src)`); the set is a duplicate-free list. -/
def srcUpdate : List ((String × String) × List String) → (String × String) → String →
    List ((String × String) × List String)
  | [], k, s => [(k, [s])]
  | (k0, l) :: t, k, s =>
    if k0 = k then (k0, if s ∈ l then l else l.concat s) :: t
    else (k0, l) :: srcUpdate t k s

/-- One step of the `src_map` pre-pass: a row whose cell parses records
its source file under the row's key, any other row is skipped. -/
def srcStep (m : List ((String × String) × List String)) (r : MetaRow) :
    List ((String × String) × List String) :=
  match keyOfCell (MetaRow.obj_id_raw r) with
  | none => m
  | some k => srcUpdate m k (MetaRow.source_file r)

/-- The `src_map` pre-pass (lines 147–153 of `linking.py`). -/
def buildSrcMap (meta : List MetaRow) : List ((String × String) × List String) :=
  meta.foldl srcStep []

/-- Model of `src_map.get(key, set())`. -/
def srcGet : List ((String × String) × List String) → (String × String) → List String
  | [], _ => []
  | (k0, l) :: t, k => if k0 = k then l else srcGet t k

/-- Pandas `dropna` over the `obj_id_raw` column: remove the nulls. -/
def dropna (l : List PyCell) : List PyCell := l.filter (fun c => c ≠ PyCell.nan)

/-- The `.map(lambda x: x.strip() if isinstance(x, str) else x)` step. -/
def stripCell : PyCell → PyCell
  | .str s => .str (pyStrip s)
  | c => c

/-- Accumulator pass of `nubFirst`: keep a value when it has not been
seen yet. -/
def nubFirstAux (seen : List PyCell) : List PyCell → List PyCell
  | [] => []
  | x :: xs => if x ∈ seen then nubFirstAux seen xs else x :: nubFirstAux (x :: seen) xs

/-- Pandas `drop_duplicates`: keep the first occurrence of each value. -/
def nubFirst (l : List PyCell) : List PyCell := nubFirstAux [] l

/-- The deduplicated `series` of lines 135–140: drop nulls, strip string
cells, drop duplicates keeping first occurrences. -/
def seriesOf (meta : List MetaRow) : List PyCell :=
  nubFirst ((dropna (meta.map MetaRow.obj_id_raw)).map stripCell)

/-- The main loop of `build_links_like_group` (lines 155–183), walking the
deduplicated cells and threading the `seen_prefixes` set. -/
def buildLoop (fs : PyFS) (images_root : String)
    (srcm : List ((String × String) × List String)) :
    List PyCell → List (String × String) → List LinkedRow × List MissRow
  | [], _ => ([], [])
  | raw :: rest, seen =>
    match parse_object_number raw with
    | none =>
      let out := buildLoop fs images_root srcm rest seen
      (out.1, { obj_id_raw := raw, year := none, base_prefix := none,
                reason := reasonNoPattern } :: out.2)
    | some p =>
      let key := keyOfParsed p
      if key ∈ seen then buildLoop fs images_root srcm rest seen
      else
        let matched :=
          find_matching_files_in_year fs images_root (ParsedKey.year p) (ParsedKey.base_prefix p)
        if matched.isEmpty then
          let out := buildLoop fs images_root srcm rest (key :: seen)
          (out.1,
           { obj_id_raw := raw, year := some (ParsedKey.year p),
             base_prefix := some (ParsedKey.base_prefix p),
             reason := reasonNoFiles (ParsedKey.year p) (ParsedKey.base_prefix p) } :: out.2)
        else
          let source_files := pySorted (srcGet srcm key)
          let out := buildLoop fs images_root srcm rest (key :: seen)
          ({ obj_id_raw := raw, year := ParsedKey.year p,
             base_prefix := ParsedKey.base_prefix p,
             images := matched.map ospBasename,
             image_count := matched.length,
             source_files := String.intercalate ", " source_files } :: out.1,
           out.2)

/-- Model of `build_links_like_group(meta, images_root)`: the linked rows plus the
misses the function logs to its side report. -/
def build_links_like_group (meta : List MetaRow) (fs : PyFS) (images_root : String) :
    List LinkedRow × List MissRow :=
  if meta.isEmpty then ([], [])
  else buildLoop fs images_root (buildSrcMap meta) (seriesOf meta) []

/-- End-to-end sanity check: the spec's worked scenario. -/
example :
    build_links_like_group
      [{ obj_id_raw := .str "1 / 1997 / 1063 0", source_file := "a.xls" }]
      { dirs := [("root/1997",
          ["1-1997-1063-000.jpg", "1-1997-1063-001.jpg", "2-1997-9999-000.jpg"])],
        files := ["root/1997/1-1997-1063-000.jpg", "root/1997/1-1997-1063-001.jpg",
                  "root/1997/2-1997-9999-000.jpg"] }
      "root"
    = ([{ obj_id_raw := .str "1 / 1997 / 1063 0", year := "1997",
          base_prefix := "1-1997-1063-",
          images := ["1-1997-1063-000.jpg", "1-1997-1063-001.jpg"],
          image_count := 2, source_files := "a.xls" }], []) := by decide

/-- Sanity check: unparseable identifier yields exactly one pattern miss. -/
example :
    build_links_like_group
      [{ obj_id_raw := .str "no number here", source_file := "a.xls" }]
      { dirs := [], files := [] } "root"
    = ([], [{ obj_id_raw := .str "no number here", year := none, base_prefix := none,
              reason := reasonNoPattern }]) := by decide

/-- Sanity check: parse succeeds, year folder absent, one no-files miss. -/
example :
    build_links_like_group
      [{ obj_id_raw := .str "3/2001/050 0", source_file := "a.xls" }]
      { dirs := [], files := [] } "root"
    = ([], [{ obj_id_raw := .str "3/2001/050 0", year := some "2001",
              base_prefix := some "3-2001-050-",
              reason := reasonNoFiles "2001" "3-2001-050-" }]) := by decide

/-- Sanity check: two identifiers differing only in the series collapse
into one group with merged provenance. -/
example :
    build_links_like_group
      [{ obj_id_raw := .str "1/1997/1063 0", source_file := "a.xls" },
       { obj_id_raw := .str "1/1997/1063 2", source_file := "b.xls" }]
      { dirs := [("root/1997", ["1-1997-1063-000.jpg"])],
        files := ["root/1997/1-1997-1063-000.jpg"] }
      "root"
    = ([{ obj_id_raw := .str "1/1997/1063 0", year := "1997",
          base_prefix := "1-1997-1063-",
          images := ["1-1997-1063-000.jpg"],
          image_count := 1, source_files := "a.xls, b.xls" }], []) := by decide

/-!  Order facts about the code-point order used by `pySorted`. -/

theorem listLexLe_total (x y : List Char) : listLexLe x y = true ∨ listLexLe y x = true := by
  induction x generalizing y with
  | nil => left; rfl
  | cons c cs ih =>
    cases y with
    | nil => right; rfl
    | cons d ds =>
      by_cases h : c = d
      · subst h
        simp only [listLexLe, if_pos rfl]
        exact ih ds
      · have hne : d ≠ c := fun hh => h hh.symm
        simp only [listLexLe, if_neg h, if_neg hne]
        rcases lt_or_gt_of_ne h with hlt | hlt
        · left; exact decide_eq_true hlt
        · right; exact decide_eq_true hlt

theorem listLexLe_trans (x y z : List Char) (h1 : listLexLe x y = true)
    (h2 : listLexLe y z = true) : listLexLe x z = true := by
  induction x generalizing y z with
  | nil => rfl
  | cons p ps ih =>
    cases y with
    | nil => exact absurd h1 (by simp [listLexLe])
    | cons q qs =>
      cases z with
      | nil => exact absurd h2 (by simp [listLexLe])
      | cons r rs =>
        by_cases hpq : p = q
        · subst hpq
          simp only [listLexLe, if_pos rfl] at h1
          by_cases hqr : p = r
          · subst hqr
            simp only [listLexLe, if_pos rfl] at h2 ⊢
            exact ih qs rs h1 h2
          · simp only [listLexLe, if_neg hqr] at h2 ⊢
            exact h2
        · simp only [listLexLe, if_neg hpq] at h1
          replace h1 : p < q := of_decide_eq_true h1
          by_cases hqr : q = r
          · subst hqr
            simp only [listLexLe, if_neg hpq]
            exact decide_eq_true h1
          · simp only [listLexLe, if_neg hqr] at h2
            replace h2 : q < r := of_decide_eq_true h2
            have hpr : p < r := lt_trans h1 h2
            simp only [listLexLe, if_neg (ne_of_lt hpr)]
            exact decide_eq_true hpr

theorem listLexLe_antisymm (x y : List Char) (h1 : listLexLe x y = true)
    (h2 : listLexLe y x = true) : x = y := by
  induction x generalizing y with
  | nil =>
    cases y with
    | nil => rfl
    | cons d ds => exact absurd h2 (by simp [listLexLe])
  | cons c cs ih =>
    cases y with
    | nil => exact absurd h1 (by simp [listLexLe])
    | cons d ds =>
      by_cases h : c = d
      · subst h
        simp only [listLexLe, if_pos rfl] at h1 h2
        rw [ih ds h1 h2]
      · have hne : d ≠ c := fun hh => h hh.symm
        simp only [listLexLe, if_neg h, if_neg hne] at h1 h2
        exact absurd (lt_trans (of_decide_eq_true h1) (of_decide_eq_true h2))
          (lt_irrefl c)

instance : IsTotal String pyLe := ⟨fun a b => listLexLe_total a.toList b.toList⟩

instance : IsTrans String pyLe :=
  ⟨fun a b c h1 h2 => listLexLe_trans a.toList b.toList c.toList h1 h2⟩

instance : IsAntisymm String pyLe := by
  constructor
  intro a b h1 h2
  have h := listLexLe_antisymm a.toList b.toList h1 h2
  cases a
  cases b
  simp only [String.toList] at h
  rw [h]

theorem pySorted_sorted (l : List String) : List.Pairwise pyLe (pySorted l) :=
  List.sorted_insertionSort _ l

theorem pySorted_perm (l : List String) : List.Perm (pySorted l) l :=
  List.perm_insertionSort _ l

theorem pySorted_mem (l : List String) (s : String) : s ∈ pySorted l ↔ s ∈ l :=
  (pySorted_perm l).mem_iff

theorem pySorted_nodup (l : List String) (h : l.Nodup) : (pySorted l).Nodup :=
  (pySorted_perm l).nodup_iff.mpr h

/-!  Character-class facts used by the matcher lemmas. -/

theorem space_not_digit (c : Char) (h : isPySpace c = true) : isPyDigit c = false := by
  unfold isPySpace at h
  simp only [Bool.or_eq_true, decide_eq_true_eq] at h
  rcases h with ((((h | h) | h) | h) | h) | h <;> subst h <;> decide

theorem digit_not_space (c : Char) (h : isPyDigit c = true) : isPySpace c = false := by
  cases hs : isPySpace c with
  | false => rfl
  | true => rw [space_not_digit c hs] at h; exact absurd h (by simp)

theorem slash_not_digit : isPyDigit '/' = false := by decide

theorem slash_not_space : isPySpace '/' = false := by decide

/-!  Generic takeWhile/dropWhile decomposition lemmas. -/

theorem takeWhile_append_left (p : Char → Bool) (l r : List Char)
    (hl : ∀ a ∈ l, p a = true) (hr : ∀ c, r.head? = some c → p c = false) :
    (l ++ r).takeWhile p = l := by
  induction l with
  | nil =>
    cases r with
    | nil => rfl
    | cons c t =>
      simp [List.takeWhile_cons, hr c rfl]
  | cons a l1 ih =>
    simp [List.takeWhile_cons, hl a (by simp), ih (fun x hx => hl x (by simp [hx]))]

theorem dropWhile_append_left (p : Char → Bool) (l r : List Char)
    (hl : ∀ a ∈ l, p a = true) (hr : ∀ c, r.head? = some c → p c = false) :
    (l ++ r).dropWhile p = r := by
  induction l with
  | nil =>
    cases r with
    | nil => rfl
    | cons c t =>
      simp [List.dropWhile_cons, hr c rfl]
  | cons a l1 ih =>
    simp [List.dropWhile_cons, hl a (by simp), ih (fun x hx => hl x (by simp [hx]))]

theorem head_not_digit_spaces_slash (W R : List Char)
    (hW : ∀ a ∈ W, isPySpace a = true) :
    ∀ c, (W ++ '/' :: R).head? = some c → isPyDigit c = false := by
  cases W with
  | nil =>
    intro c hc
    simp only [List.nil_append, List.head?_cons, Option.some.injEq] at hc
    rw [← hc]
    exact slash_not_digit
  | cons a t =>
    intro c hc
    simp only [List.cons_append, List.head?_cons, Option.some.injEq] at hc
    rw [← hc]
    exact space_not_digit a (hW a (by simp))

theorem takeWhile_append_all (p : Char → Bool) (l r : List Char)
    (hl : ∀ a ∈ l, p a = true) : (l ++ r).takeWhile p = l ++ r.takeWhile p := by
  induction l with
  | nil => rfl
  | cons a l1 ih =>
    simp [List.takeWhile_cons, hl a (by simp), ih (fun x hx => hl x (by simp [hx]))]

theorem dropWhile_append_all (p : Char → Bool) (l r : List Char)
    (hl : ∀ a ∈ l, p a = true) : (l ++ r).dropWhile p = r.dropWhile p := by
  induction l with
  | nil => rfl
  | cons a l1 ih =>
    simp [List.dropWhile_cons, hl a (by simp), ih (fun x hx => hl x (by simp [hx]))]

theorem head_not_space_slash (R : List Char) :
    ∀ c, ('/' :: R).head? = some c → isPySpace c = false := by
  intro c hc
  simp only [List.head?_cons, Option.some.injEq] at hc
  rw [← hc]
  exact slash_not_space

theorem head_not_space_digit (d : Char) (R : List Char) (hd : isPyDigit d = true) :
    ∀ c, (d :: R).head? = some c → isPySpace c = false := by
  intro c hc
  simp only [List.head?_cons, Option.some.injEq] at hc
  rw [← hc]
  exact digit_not_space d hd

theorem length_three_decomp (l : List Char) (h : l.length = 3) :
    ∃ a b c, l = [a, b, c] := by
  rcases l with _ | ⟨a, _ | ⟨b, _ | ⟨c, _ | ⟨d, t⟩⟩⟩⟩
  · simp at h
  · simp at h
  · simp at h
  · exact ⟨a, b, c, rfl⟩
  · simp only [List.length_cons] at h
    omega

theorem length_four_decomp (l : List Char) (h : l.length = 4) :
    ∃ a b c d, l = [a, b, c, d] := by
  rcases l with _ | ⟨a, _ | ⟨b, _ | ⟨c, _ | ⟨d, _ | ⟨e, t⟩⟩⟩⟩⟩
  · simp at h
  · simp at h
  · simp at h
  · simp at h
  · exact ⟨a, b, c, d, rfl⟩
  · simp only [List.length_cons] at h
    omega

theorem takeDigits1_structured (G r : List Char) (hne : G ≠ [])
    (hG : ∀ a ∈ G, isPyDigit a = true)
    (hr : ∀ c, r.head? = some c → isPyDigit c = false) :
    takeDigits1 (G ++ r) = some (G, r) := by
  unfold takeDigits1
  rw [takeWhile_append_left _ G r hG hr, dropWhile_append_left _ G r hG hr]
  cases G with
  | nil => exact absurd rfl hne
  | cons a t => rfl

theorem skipSpaces_append (W r : List Char) (hW : ∀ a ∈ W, isPySpace a = true)
    (hr : ∀ c, r.head? = some c → isPySpace c = false) :
    skipSpaces (W ++ r) = r :=
  dropWhile_append_left _ W r hW hr

theorem matchFinish_structured (S WS SER REST : List Char)
    (hWSne : WS ≠ []) (hWS : ∀ a ∈ WS, isPySpace a = true)
    (hSERne : SER ≠ []) (hSER : ∀ a ∈ SER, isPyDigit a = true) :
    matchFinish S (WS ++ (SER ++ REST)) = some (S, SER ++ REST.takeWhile isPyDigit) := by
  have hhead : ∀ c, (SER ++ REST).head? = some c → isPySpace c = false := by
    cases SER with
    | nil => exact absurd rfl hSERne
    | cons a t =>
      intro c hc
      simp only [List.cons_append, List.head?_cons, Option.some.injEq] at hc
      rw [← hc]
      exact digit_not_space a (hSER a (by simp))
  have h1 : takeSpaces1 (WS ++ (SER ++ REST)) = some (WS, SER ++ REST) := by
    unfold takeSpaces1
    rw [takeWhile_append_left _ WS _ hWS hhead, dropWhile_append_left _ WS _ hWS hhead]
    cases WS with
    | nil => exact absurd rfl hWSne
    | cons w ws1 => rfl
  have h2 : takeDigits1 (SER ++ REST) =
      some (SER ++ REST.takeWhile isPyDigit, REST.dropWhile isPyDigit) := by
    unfold takeDigits1
    rw [takeWhile_append_all _ SER REST hSER, dropWhile_append_all _ SER REST hSER]
    cases SER with
    | nil => exact absurd rfl hSERne
    | cons a t => rfl
  unfold matchFinish
  rw [h1, Option.some_bind, h2, Option.some_bind]

theorem matchTail34_structured (S WS SER REST : List Char)
    (hS : ∀ a ∈ S, isPyDigit a = true) (hSlen : S.length = 3 ∨ S.length = 4)
    (hWSne : WS ≠ []) (hWS : ∀ a ∈ WS, isPySpace a = true)
    (hSERne : SER ≠ []) (hSER : ∀ a ∈ SER, isPyDigit a = true) :
    matchTail34 (S ++ (WS ++ (SER ++ REST))) = some (S, SER ++ REST.takeWhile isPyDigit) := by
  have hfin := matchFinish_structured S WS SER REST hWSne hWS hSERne hSER
  rcases hSlen with h3 | h4
  · obtain ⟨a, b, c, rfl⟩ := length_three_decomp S h3
    obtain ⟨w, ws1, rfl⟩ : ∃ w t, WS = w :: t := by
      cases WS with
      | nil => exact absurd rfl hWSne
      | cons w t => exact ⟨w, t, rfl⟩
    have hw : isPyDigit w = false := space_not_digit w (hWS w (by simp))
    have ht4 : take4Digits ([a, b, c] ++ ((w :: ws1) ++ (SER ++ REST))) = none := by
      simp [take4Digits, hw]
    have ht3 : take3Digits ([a, b, c] ++ ((w :: ws1) ++ (SER ++ REST))) =
        some ([a, b, c], (w :: ws1) ++ (SER ++ REST)) := by
      simp [take3Digits, hS a (by simp), hS b (by simp), hS c (by simp)]
    unfold matchTail34
    rw [ht4, Option.none_bind]
    have horelse : ∀ g : Unit → Option (List Char × List Char),
        (none : Option (List Char × List Char)).orElse g = g () := fun _ => rfl
    rw [horelse, ht3, Option.some_bind]
    exact hfin
  · obtain ⟨a, b, c, d, rfl⟩ := length_four_decomp S h4
    have ht4 : take4Digits ([a, b, c, d] ++ (WS ++ (SER ++ REST))) =
        some ([a, b, c, d], WS ++ (SER ++ REST)) := by
      simp [take4Digits, hS a (by simp), hS b (by simp), hS c (by simp), hS d (by simp)]
    unfold matchTail34
    rw [ht4, Option.some_bind]
    show (matchFinish [a, b, c, d] (WS ++ (SER ++ REST))).orElse _ = _
    rw [hfin]
    rfl

theorem matchAt_structured
    (G W1 W2 Y W3 W4 S WS SER REST : List Char)
    (hGne : G ≠ []) (hG : ∀ a ∈ G, isPyDigit a = true)
    (hW1 : ∀ a ∈ W1, isPySpace a = true) (hW2 : ∀ a ∈ W2, isPySpace a = true)
    (hYlen : Y.length = 4) (hY : ∀ a ∈ Y, isPyDigit a = true)
    (hW3 : ∀ a ∈ W3, isPySpace a = true) (hW4 : ∀ a ∈ W4, isPySpace a = true)
    (hS : ∀ a ∈ S, isPyDigit a = true) (hSlen : S.length = 3 ∨ S.length = 4)
    (hWSne : WS ≠ []) (hWS : ∀ a ∈ WS, isPySpace a = true)
    (hSERne : SER ≠ []) (hSER : ∀ a ∈ SER, isPyDigit a = true) :
    matchAt (G ++ (W1 ++ ('/' :: (W2 ++ (Y ++ (W3 ++ ('/' ::
        (W4 ++ (S ++ (WS ++ (SER ++ REST))))))))))) =
      some ⟨G, Y, S, SER ++ REST.takeWhile isPyDigit⟩ := by
  obtain ⟨y1, y2, y3, y4, rfl⟩ := length_four_decomp Y hYlen
  have hy1 : isPyDigit y1 = true := hY y1 (by simp)
  have hy2 : isPyDigit y2 = true := hY y2 (by simp)
  have hy3 : isPyDigit y3 = true := hY y3 (by simp)
  have hy4 : isPyDigit y4 = true := hY y4 (by simp)
  obtain ⟨s0, St, hSeq⟩ : ∃ s0 t, S = s0 :: t := by
    cases S with
    | nil => rcases hSlen with h | h <;> simp at h
    | cons s0 t => exact ⟨s0, t, rfl⟩
  have h1 := takeDigits1_structured G
      (W1 ++ ('/' :: (W2 ++ ([y1, y2, y3, y4] ++ (W3 ++ ('/' ::
        (W4 ++ (S ++ (WS ++ (SER ++ REST)))))))))) hGne hG
      (head_not_digit_spaces_slash W1 (W2 ++ ([y1, y2, y3, y4] ++ (W3 ++ ('/' ::
        (W4 ++ (S ++ (WS ++ (SER ++ REST)))))))) hW1)
  have h2 := skipSpaces_append W1 ('/' :: (W2 ++ ([y1, y2, y3, y4] ++ (W3 ++ ('/' ::
      (W4 ++ (S ++ (WS ++ (SER ++ REST))))))))) hW1 (head_not_space_slash _)
  have h3 := skipSpaces_append W2 ([y1, y2, y3, y4] ++ (W3 ++ ('/' ::
      (W4 ++ (S ++ (WS ++ (SER ++ REST))))))) hW2
      (by
        intro c hcc
        simp only [List.cons_append, List.head?_cons, Option.some.injEq] at hcc
        rw [← hcc]
        exact digit_not_space y1 hy1)
  have ht4 : take4Digits ([y1, y2, y3, y4] ++ (W3 ++ ('/' ::
      (W4 ++ (S ++ (WS ++ (SER ++ REST))))))) =
      some ([y1, y2, y3, y4], W3 ++ ('/' :: (W4 ++ (S ++ (WS ++ (SER ++ REST)))))) := by
    simp [take4Digits, hy1, hy2, hy3, hy4]
  have h4 := skipSpaces_append W3 ('/' :: (W4 ++ (S ++ (WS ++ (SER ++ REST))))) hW3
      (head_not_space_slash _)
  have h5 := skipSpaces_append W4 (S ++ (WS ++ (SER ++ REST))) hW4
      (by
        intro c hcc
        rw [hSeq] at hcc
        simp only [List.cons_append, List.head?_cons, Option.some.injEq] at hcc
        rw [← hcc]
        exact digit_not_space s0 (by rw [hSeq] at hS; exact hS s0 (by simp)))
  have h6 := matchTail34_structured S WS SER REST hS hSlen hWSne hWS hSERne hSER
  unfold matchAt
  rw [h1, Option.some_bind]
  simp only [h2, expectSlash, Option.some_bind, h3, ht4, h4, h5, h6]

theorem matchAt_cons_not_digit (c : Char) (t : List Char) (hc : isPyDigit c = false) :
    matchAt (c :: t) = none := by
  unfold matchAt takeDigits1
  simp [List.takeWhile_cons, hc]

theorem searchRe_append_nondigits (P R : List Char)
    (hP : ∀ a ∈ P, isPyDigit a = false) : searchRe (P ++ R) = searchRe R := by
  induction P with
  | nil => rfl
  | cons c t ih =>
    have hm : matchAt (c :: (t ++ R)) = none := matchAt_cons_not_digit c _ (hP c (by simp))
    have hstep : searchRe (c :: (t ++ R)) = searchRe (t ++ R) := by
      simp only [searchRe]
      rw [hm]
    rw [List.cons_append, hstep]
    exact ih (fun x hx => hP x (by simp [hx]))

theorem searchRe_of_matchAt (cs : List Char) (g : ReGroups) (h : matchAt cs = some g) :
    searchRe cs = some g := by
  cases cs with
  | nil => exact absurd h (by simp [matchAt, takeDigits1])
  | cons c t => simp only [searchRe, h]

theorem toList_ne_nil_of_ne_empty (s : String) (h : s ≠ "") : s.toList ≠ [] := by
  cases s with
  | mk data =>
    intro hl
    simp only [String.toList] at hl
    subst hl
    exact h rfl

/-- Shared kernel of the C3/C6 analyses: on a raw identifier that carries
an occurrence of the pattern `g/yyyy/sss s` (with no digit anywhere before
that occurrence, so the occurrence is the leftmost match), the parser
returns the year and the prefix built from the first three groups; the
trailing series digits and everything after them only feed the discarded
fourth group. -/
theorem parse_structured
    (pre g w1 w2 yyyy w3 w4 sss ws ser post : String)
    (hpre : pre.toList.all (fun c => !isPyDigit c) = true)
    (hg : g.toList.all isPyDigit = true) (hgne : g ≠ "")
    (hy : yyyy.toList.all isPyDigit = true) (hylen : yyyy.length = 4)
    (hw1 : w1.toList.all isPySpace = true) (hw2 : w2.toList.all isPySpace = true)
    (hw3 : w3.toList.all isPySpace = true) (hw4 : w4.toList.all isPySpace = true)
    (hs : sss.toList.all isPyDigit = true) (hslen : sss.length = 3 ∨ sss.length = 4)
    (hws : ws.toList.all isPySpace = true) (hwsne : ws ≠ "")
    (hser : ser.toList.all isPyDigit = true) (hserne : ser ≠ "") :
    parse_object_number (.str
        (pre ++ g ++ w1 ++ "/" ++ w2 ++ yyyy ++ w3 ++ "/" ++ w4 ++ sss ++ ws ++ ser ++ post)) =
      some { year := yyyy, base_prefix := g ++ "-" ++ yyyy ++ "-" ++ sss ++ "-" } := by
  have happ : ∀ s t : String, (s ++ t).toList = s.toList ++ t.toList := fun _ _ => rfl
  have hmatch := matchAt_structured g.toList w1.toList w2.toList yyyy.toList w3.toList
      w4.toList sss.toList ws.toList ser.toList post.toList
      (toList_ne_nil_of_ne_empty g hgne) (List.all_eq_true.mp hg)
      (List.all_eq_true.mp hw1) (List.all_eq_true.mp hw2)
      hylen (List.all_eq_true.mp hy)
      (List.all_eq_true.mp hw3) (List.all_eq_true.mp hw4)
      (List.all_eq_true.mp hs) hslen
      (toList_ne_nil_of_ne_empty ws hwsne) (List.all_eq_true.mp hws)
      (toList_ne_nil_of_ne_empty ser hserne) (List.all_eq_true.mp hser)
  have hsearch : searchRe ((pre ++ g ++ w1 ++ "/" ++ w2 ++ yyyy ++ w3 ++ "/" ++ w4 ++
      sss ++ ws ++ ser ++ post).toList) =
      some ⟨g.toList, yyyy.toList, sss.toList, ser.toList ++ post.toList.takeWhile isPyDigit⟩ := by
    simp only [happ]
    have hsl : ("/" : String).toList = ['/'] := rfl
    rw [hsl]
    simp only [List.append_assoc, List.singleton_append]
    rw [searchRe_append_nondigits pre.toList _
      (by
        intro a ha
        have := List.all_eq_true.mp hpre a ha
        simpa using this)]
    exact searchRe_of_matchAt _ _ hmatch
  show parse_object_number_str
      (pre ++ g ++ w1 ++ "/" ++ w2 ++ yyyy ++ w3 ++ "/" ++ w4 ++ sss ++ ws ++ ser ++ post) = _
  unfold parse_object_number_str
  rw [hsearch]
  rfl


theorem takeDigits1_some (cs d r : List Char) (h : takeDigits1 cs = some (d, r)) :
    cs = d ++ r ∧ d ≠ [] ∧ ∀ a ∈ d, isPyDigit a = true := by
  unfold takeDigits1 at h
  split at h
  · exact absurd h (by simp)
  · rename_i hne
    injection h with h
    injection h with h1 h2
    subst h1
    subst h2
    refine ⟨(List.takeWhile_append_dropWhile isPyDigit cs).symm, ?_,
      fun a ha => List.mem_takeWhile_imp ha⟩
    intro hnil
    rw [hnil] at hne
    exact hne rfl

theorem takeSpaces1_some (cs w r : List Char) (h : takeSpaces1 cs = some (w, r)) :
    cs = w ++ r ∧ w ≠ [] ∧ ∀ a ∈ w, isPySpace a = true := by
  unfold takeSpaces1 at h
  split at h
  · exact absurd h (by simp)
  · rename_i hne
    injection h with h
    injection h with h1 h2
    subst h1
    subst h2
    refine ⟨(List.takeWhile_append_dropWhile isPySpace cs).symm, ?_,
      fun a ha => List.mem_takeWhile_imp ha⟩
    intro hnil
    rw [hnil] at hne
    exact hne rfl

theorem skipSpaces_decomp (cs : List Char) :
    ∃ W, cs = W ++ skipSpaces cs ∧ ∀ a ∈ W, isPySpace a = true :=
  ⟨cs.takeWhile isPySpace, (List.takeWhile_append_dropWhile isPySpace cs).symm,
    fun _ ha => List.mem_takeWhile_imp ha⟩

theorem expectSlash_some (x r : List Char) (h : expectSlash x = some r) : x = '/' :: r := by
  unfold expectSlash at h
  split at h
  · injection h with h
    rw [h]
  · exact absurd h (by simp)

theorem take4Digits_some (x d r : List Char) (h : take4Digits x = some (d, r)) :
    x = d ++ r ∧ d.length = 4 ∧ ∀ a ∈ d, isPyDigit a = true := by
  unfold take4Digits at h
  split at h
  · split at h
    · rename_i hcond
      simp only [Bool.and_eq_true] at hcond
      injection h with h
      injection h with h1 h2
      subst h1
      subst h2
      refine ⟨rfl, rfl, ?_⟩
      intro z hz
      simp only [List.mem_cons, List.not_mem_nil, or_false] at hz
      rcases hz with rfl | rfl | rfl | rfl
      · exact hcond.1.1.1
      · exact hcond.1.1.2
      · exact hcond.1.2
      · exact hcond.2
    · exact absurd h (by simp)
  · exact absurd h (by simp)

theorem take3Digits_some (x d r : List Char) (h : take3Digits x = some (d, r)) :
    x = d ++ r ∧ d.length = 3 ∧ ∀ a ∈ d, isPyDigit a = true := by
  unfold take3Digits at h
  split at h
  · split at h
    · rename_i hcond
      simp only [Bool.and_eq_true] at hcond
      injection h with h
      injection h with h1 h2
      subst h1
      subst h2
      refine ⟨rfl, rfl, ?_⟩
      intro z hz
      simp only [List.mem_cons, List.not_mem_nil, or_false] at hz
      rcases hz with rfl | rfl | rfl
      · exact hcond.1.1
      · exact hcond.1.2
      · exact hcond.2
    · exact absurd h (by simp)
  · exact absurd h (by simp)

theorem matchFinish_some (S r9 d3 d4 : List Char) (h : matchFinish S r9 = some (d3, d4)) :
    d3 = S ∧ ∃ WS R2, r9 = WS ++ (d4 ++ R2) ∧ WS ≠ [] ∧ (∀ a ∈ WS, isPySpace a = true) ∧
      d4 ≠ [] ∧ ∀ a ∈ d4, isPyDigit a = true := by
  unfold matchFinish at h
  rcases Option.bind_eq_some.mp h with ⟨w, hts, h2⟩
  rcases Option.bind_eq_some.mp h2 with ⟨q, htd, h3⟩
  injection h3 with h3
  have h3a : S = d3 := congrArg Prod.fst h3
  have h3b : q.1 = d4 := congrArg Prod.snd h3
  obtain ⟨hr9, hwne, hwsp⟩ := takeSpaces1_some r9 w.1 w.2 hts
  obtain ⟨hr10, hdne, hdd⟩ := takeDigits1_some w.2 q.1 q.2 htd
  subst h3a
  subst h3b
  exact ⟨rfl, w.1, q.2, by rw [hr9, hr10], hwne, hwsp, hdne, hdd⟩

theorem matchTail34_some (r8 d3 d4 : List Char) (h : matchTail34 r8 = some (d3, d4)) :
    ∃ WS R2, r8 = d3 ++ (WS ++ (d4 ++ R2)) ∧ (d3.length = 3 ∨ d3.length = 4) ∧
      (∀ a ∈ d3, isPyDigit a = true) ∧ WS ≠ [] ∧ (∀ a ∈ WS, isPySpace a = true) ∧
      d4 ≠ [] ∧ ∀ a ∈ d4, isPyDigit a = true := by
  unfold matchTail34 at h
  cases h14 : (take4Digits r8).bind (fun p => matchFinish p.1 p.2) with
  | some x =>
    rw [h14] at h
    injection h with h
    subst h
    rcases Option.bind_eq_some.mp h14 with ⟨p, h4eq, hfin⟩
    obtain ⟨hd3, WS, R2, hp2, hWSne, hWSsp, hd4ne, hd4⟩ :=
      matchFinish_some p.1 p.2 d3 d4 hfin
    obtain ⟨hr8, hlen, hdig⟩ := take4Digits_some r8 p.1 p.2 h4eq
    subst hd3
    exact ⟨WS, R2, by rw [hr8, hp2], Or.inr hlen, hdig, hWSne, hWSsp, hd4ne, hd4⟩
  | none =>
    rw [h14] at h
    replace h : (take3Digits r8).bind (fun p => matchFinish p.1 p.2) = some (d3, d4) := h
    rcases Option.bind_eq_some.mp h with ⟨p, h3eq, hfin⟩
    obtain ⟨hd3, WS, R2, hp2, hWSne, hWSsp, hd4ne, hd4⟩ :=
      matchFinish_some p.1 p.2 d3 d4 hfin
    obtain ⟨hr8, hlen, hdig⟩ := take3Digits_some r8 p.1 p.2 h3eq
    subst hd3
    exact ⟨WS, R2, by rw [hr8, hp2], Or.inl hlen, hdig, hWSne, hWSsp, hd4ne, hd4⟩

theorem matchAt_some (cs : List Char) (g : ReGroups) (h : matchAt cs = some g) :
    ∃ W1 W2 W3 W4 WS REST,
      cs = g.g1 ++ (W1 ++ ('/' :: (W2 ++ (g.g2 ++ (W3 ++ ('/' ::
        (W4 ++ (g.g3 ++ (WS ++ (g.g4 ++ REST)))))))))) ∧
      g.g1 ≠ [] ∧ (∀ a ∈ g.g1, isPyDigit a = true) ∧
      (∀ a ∈ W1, isPySpace a = true) ∧ (∀ a ∈ W2, isPySpace a = true) ∧
      g.g2.length = 4 ∧ (∀ a ∈ g.g2, isPyDigit a = true) ∧
      (∀ a ∈ W3, isPySpace a = true) ∧ (∀ a ∈ W4, isPySpace a = true) ∧
      (g.g3.length = 3 ∨ g.g3.length = 4) ∧ (∀ a ∈ g.g3, isPyDigit a = true) ∧
      WS ≠ [] ∧ (∀ a ∈ WS, isPySpace a = true) ∧
      g.g4 ≠ [] ∧ (∀ a ∈ g.g4, isPyDigit a = true) := by
  unfold matchAt at h
  rcases Option.bind_eq_some.mp h with ⟨p1, h1, h⟩
  rcases Option.bind_eq_some.mp h with ⟨r3, h2, h⟩
  rcases Option.bind_eq_some.mp h with ⟨p2, h3, h⟩
  rcases Option.bind_eq_some.mp h with ⟨r7, h4, h⟩
  rcases Option.bind_eq_some.mp h with ⟨p34, h5, h⟩
  injection h with h
  have hg1 : p1.1 = g.g1 := congrArg ReGroups.g1 h
  have hg2 : p2.1 = g.g2 := congrArg ReGroups.g2 h
  have hg3 : p34.1 = g.g3 := congrArg ReGroups.g3 h
  have hg4 : p34.2 = g.g4 := congrArg ReGroups.g4 h
  obtain ⟨hcs, hp1ne, hp1d⟩ := takeDigits1_some cs p1.1 p1.2 h1
  obtain ⟨W1, hW1eq, hW1sp⟩ := skipSpaces_decomp p1.2
  have hsl1 : skipSpaces p1.2 = '/' :: r3 := expectSlash_some _ _ h2
  obtain ⟨W2, hW2eq, hW2sp⟩ := skipSpaces_decomp r3
  obtain ⟨hsr3, hp2len, hp2d⟩ := take4Digits_some (skipSpaces r3) p2.1 p2.2 h3
  obtain ⟨W3, hW3eq, hW3sp⟩ := skipSpaces_decomp p2.2
  have hsl2 : skipSpaces p2.2 = '/' :: r7 := expectSlash_some _ _ h4
  obtain ⟨W4, hW4eq, hW4sp⟩ := skipSpaces_decomp r7
  obtain ⟨WS, R2, hsr7, hp34len, hp34d, hWSne, hWSsp, hp34bne, hp34bd⟩ :=
    matchTail34_some (skipSpaces r7) p34.1 p34.2 h5
  refine ⟨W1, W2, W3, W4, WS, R2, ?_, ?_, ?_, hW1sp, hW2sp, ?_, ?_, hW3sp, hW4sp,
    ?_, ?_, hWSne, hWSsp, ?_, ?_⟩
  · rw [hcs, ← hg1, hW1eq, hsl1, hW2eq, hsr3, ← hg2, hW3eq, hsl2, hW4eq, hsr7, ← hg3, ← hg4]
  · rw [← hg1]; exact hp1ne
  · rw [← hg1]; exact hp1d
  · rw [← hg2]; exact hp2len
  · rw [← hg2]; exact hp2d
  · rw [← hg3]; exact hp34len
  · rw [← hg3]; exact hp34d
  · rw [← hg4]; exact hp34bne
  · rw [← hg4]; exact hp34bd

theorem searchRe_some (cs : List Char) (g : ReGroups) (h : searchRe cs = some g) :
    ∃ P Q, cs = P ++ Q ∧ matchAt Q = some g := by
  induction cs with
  | nil => exact absurd h (by simp [searchRe])
  | cons c t ih =>
    rw [searchRe] at h
    cases hm : matchAt (c :: t) with
    | some g0 =>
      rw [hm] at h
      injection h with h
      subst h
      exact ⟨[], c :: t, rfl, hm⟩
    | none =>
      rw [hm] at h
      obtain ⟨P, Q, hPQ, hQ⟩ := ih h
      exact ⟨c :: P, Q, by rw [List.cons_append, hPQ], hQ⟩

theorem string_toList_inj (a b : String) (h : a.toList = b.toList) : a = b := by
  cases a
  cases b
  simp only [String.toList] at h
  rw [h]

theorem mk_ne_empty (l : List Char) (h : l ≠ []) : String.mk l ≠ "" := by
  intro he
  apply h
  have h2 := congrArg String.toList he
  exact h2

/-- A raw identifier contains an occurrence of the `OBJ_RE` pattern
somewhere (no condition on what surrounds it): digits, a slash with
optional whitespace, a four-digit year, a slash with optional whitespace,
a three-or-four digit number, mandatory whitespace, digits. -/
def ContainsObjPattern (s : String) : Prop :=
  ∃ pre g w1 w2 yyyy w3 w4 sss ws ser post : String,
    s = pre ++ g ++ w1 ++ "/" ++ w2 ++ yyyy ++ w3 ++ "/" ++ w4 ++ sss ++ ws ++ ser ++ post ∧
    g.toList.all isPyDigit = true ∧ g ≠ "" ∧
    yyyy.toList.all isPyDigit = true ∧ yyyy.length = 4 ∧
    w1.toList.all isPySpace = true ∧ w2.toList.all isPySpace = true ∧
    w3.toList.all isPySpace = true ∧ w4.toList.all isPySpace = true ∧
    sss.toList.all isPyDigit = true ∧ (sss.length = 3 ∨ sss.length = 4) ∧
    ws.toList.all isPySpace = true ∧ ws ≠ "" ∧
    ser.toList.all isPyDigit = true ∧ ser ≠ ""

theorem contains_of_parse_some (s : String) (k : ParsedKey)
    (h : parse_object_number_str s = some k) : ContainsObjPattern s := by
  unfold parse_object_number_str at h
  cases hsr : searchRe s.toList with
  | none => rw [hsr] at h; exact absurd h (by simp)
  | some g =>
    obtain ⟨P, Q, hPQ, hQ⟩ := searchRe_some s.toList g hsr
    obtain ⟨W1, W2, W3, W4, WS, REST, hceq, hg1ne, hg1d, hW1, hW2, hg2len, hg2d,
      hW3, hW4, hg3len, hg3d, hWSne, hWSsp, hg4ne, hg4d⟩ := matchAt_some Q g hQ
    refine ⟨String.mk P, String.mk g.g1, String.mk W1, String.mk W2, String.mk g.g2,
      String.mk W3, String.mk W4, String.mk g.g3, String.mk WS, String.mk g.g4,
      String.mk REST, ?_, List.all_eq_true.mpr hg1d, mk_ne_empty _ hg1ne,
      List.all_eq_true.mpr hg2d, hg2len,
      List.all_eq_true.mpr hW1, List.all_eq_true.mpr hW2,
      List.all_eq_true.mpr hW3, List.all_eq_true.mpr hW4,
      List.all_eq_true.mpr hg3d, hg3len,
      List.all_eq_true.mpr hWSsp, mk_ne_empty _ hWSne,
      List.all_eq_true.mpr hg4d, mk_ne_empty _ hg4ne⟩
    apply string_toList_inj
    show s.toList = P ++ g.g1 ++ W1 ++ ['/'] ++ W2 ++ g.g2 ++ W3 ++ ['/'] ++ W4 ++
      g.g3 ++ WS ++ g.g4 ++ REST
    rw [hPQ, hceq]
    simp [List.append_assoc]

theorem searchRe_ne_none_append (P R : List Char) (hR : searchRe R ≠ none) :
    searchRe (P ++ R) ≠ none := by
  induction P with
  | nil => exact hR
  | cons c t ih =>
    rw [List.cons_append, searchRe]
    cases hm : matchAt (c :: (t ++ R)) with
    | some g => simp
    | none => exact ih

theorem parse_some_of_contains (s : String) (h : ContainsObjPattern s) :
    ∃ k, parse_object_number_str s = some k := by
  obtain ⟨pre, g, w1, w2, yyyy, w3, w4, sss, ws, ser, post, hs, hg, hgne, hy, hylen,
    hw1, hw2, hw3, hw4, hsss, hslen, hws, hwsne, hser, hserne⟩ := h
  have hmatch := matchAt_structured g.toList w1.toList w2.toList yyyy.toList w3.toList
      w4.toList sss.toList ws.toList ser.toList post.toList
      (toList_ne_nil_of_ne_empty g hgne) (List.all_eq_true.mp hg)
      (List.all_eq_true.mp hw1) (List.all_eq_true.mp hw2) hylen (List.all_eq_true.mp hy)
      (List.all_eq_true.mp hw3) (List.all_eq_true.mp hw4)
      (List.all_eq_true.mp hsss) hslen
      (toList_ne_nil_of_ne_empty ws hwsne) (List.all_eq_true.mp hws)
      (toList_ne_nil_of_ne_empty ser hserne) (List.all_eq_true.mp hser)
  have hcore : searchRe (g.toList ++ (w1.toList ++ ('/' :: (w2.toList ++ (yyyy.toList ++
      (w3.toList ++ ('/' :: (w4.toList ++ (sss.toList ++ (ws.toList ++
      (ser.toList ++ post.toList))))))))))) ≠ none := by
    rw [searchRe_of_matchAt _ _ hmatch]
    simp
  have hfull : searchRe s.toList ≠ none := by
    rw [hs]
    show searchRe ((pre ++ g ++ w1 ++ "/" ++ w2 ++ yyyy ++ w3 ++ "/" ++ w4 ++ sss ++
      ws ++ ser ++ post).toList) ≠ none
    have happ : (pre ++ g ++ w1 ++ "/" ++ w2 ++ yyyy ++ w3 ++ "/" ++ w4 ++ sss ++
        ws ++ ser ++ post).toList = pre.toList ++ (g.toList ++ (w1.toList ++ ('/' ::
        (w2.toList ++ (yyyy.toList ++ (w3.toList ++ ('/' :: (w4.toList ++ (sss.toList ++
        (ws.toList ++ (ser.toList ++ post.toList))))))))))) := by
      show pre.toList ++ g.toList ++ w1.toList ++ ['/'] ++ w2.toList ++ yyyy.toList ++
        w3.toList ++ ['/'] ++ w4.toList ++ sss.toList ++ ws.toList ++ ser.toList ++
        post.toList = _
      simp [List.append_assoc]
    rw [happ]
    exact searchRe_ne_none_append pre.toList _ hcore
  unfold parse_object_number_str
  cases hsr : searchRe s.toList with
  | none => exact absurd hsr hfull
  | some g0 => exact ⟨_, rfl⟩

/-- C2: for every image root, year string and prefix, `resolve` returns
exactly the direct children of `<root>/<year>` that are regular files
with an allowed extension (case-insensitive) and a filename that starts
(case-insensitively) with the prefix; only names listed for the year
directory itself can appear, so nested files never do; and the result is
sorted lexicographically by full path. -/
theorem C2_resolver_exact_and_sorted (fs : PyFS) (images_root year bp : String) :
    (∀ p, p ∈ find_matching_files_in_year fs images_root year bp ↔
      (PyFS.isDir fs (ospJoin images_root year) = true ∧
       ∃ name, name ∈ PyFS.listdir fs (ospJoin images_root year) ∧
         p = ospJoin (ospJoin images_root year) name ∧
         PyFS.isFile fs p = true ∧
         ALLOWED_EXTS.contains (pyLower (splitextExt name)) = true ∧
         ((pyLower bp).toList.isPrefixOf (pyLower name).toList) = true)) ∧
    List.Pairwise pyLe (find_matching_files_in_year fs images_root year bp) := by
  constructor
  · intro p
    unfold find_matching_files_in_year
    by_cases hdir : PyFS.isDir fs (ospJoin images_root year) = true
    · rw [if_pos hdir]
      rw [pySorted_mem]
      constructor
      · intro hp
        obtain ⟨name, hnf, hpeq⟩ := List.mem_map.mp hp
        obtain ⟨hnl, hcond⟩ := List.mem_filter.mp hnf
        simp only [Bool.and_eq_true] at hcond
        refine ⟨hdir, name, hnl, hpeq.symm, ?_, hcond.1.2, hcond.2⟩
        rw [← hpeq]
        exact hcond.1.1
      · rintro ⟨-, name, hnl, hpeq, hfile, hext, hpref⟩
        apply List.mem_map.mpr
        refine ⟨name, ?_, hpeq.symm⟩
        apply List.mem_filter.mpr
        refine ⟨hnl, ?_⟩
        simp only [Bool.and_eq_true]
        exact ⟨⟨by rw [hpeq] at hfile; exact hfile, hext⟩, hpref⟩
    · rw [if_neg hdir]
      simp only [List.not_mem_nil, false_iff]
      rintro ⟨hd, -⟩
      exact hdir hd
  · unfold find_matching_files_in_year
    by_cases hdir : PyFS.isDir fs (ospJoin images_root year) = true
    · rw [if_pos hdir]
      exact pySorted_sorted _
    · rw [if_neg hdir]
      exact List.Pairwise.nil

/-- C5: when the year directory does not exist, `resolve` returns the
empty sequence (the embedding is total, so no exception can occur). -/
theorem C5_resolver_missing_dir (fs : PyFS) (images_root year bp : String)
    (h : PyFS.isDir fs (ospJoin images_root year) = false) :
    find_matching_files_in_year fs images_root year bp = [] := by
  unfold find_matching_files_in_year
  rw [if_neg (by rw [h]; exact Bool.false_ne_true)]

/-- Witness for C5 at a concrete filesystem with no directories. -/
theorem C5_resolver_missing_dir_witness :
    PyFS.isDir { dirs := [], files := [] } (ospJoin "root" "2001") = false ∧
      find_matching_files_in_year { dirs := [], files := [] } "root" "2001" "3-2001-050-" = [] :=
  ⟨by decide, C5_resolver_missing_dir { dirs := [], files := [] } "root" "2001" "3-2001-050-"
    (by decide)⟩

/-- C3: for every raw string containing the pattern `g/yyyy/sss s` —
digits, slash with optional surrounding whitespace, a four-digit year,
slash with optional surrounding whitespace, a three-or-four digit
sequence, mandatory whitespace, digits — the parser returns a key whose
year is `yyyy` and whose prefix is `g-yyyy-sss-`; the trailing series
digits (`ser`, and any digits following it in `post`) have no effect on
the returned key, and the occurrence may sit anywhere in the string
(arbitrary digit-free text before it, arbitrary text after it). -/
theorem C3_parse_extracts_year_and_prefix
    (pre g w1 w2 yyyy w3 w4 sss ws ser post : String)
    (hpre : pre.toList.all (fun c => !isPyDigit c) = true)
    (hg : g.toList.all isPyDigit = true) (hgne : g ≠ "")
    (hy : yyyy.toList.all isPyDigit = true) (hylen : yyyy.length = 4)
    (hw1 : w1.toList.all isPySpace = true) (hw2 : w2.toList.all isPySpace = true)
    (hw3 : w3.toList.all isPySpace = true) (hw4 : w4.toList.all isPySpace = true)
    (hs : sss.toList.all isPyDigit = true) (hslen : sss.length = 3 ∨ sss.length = 4)
    (hws : ws.toList.all isPySpace = true) (hwsne : ws ≠ "")
    (hser : ser.toList.all isPyDigit = true) (hserne : ser ≠ "") :
    parse_object_number (.str
        (pre ++ g ++ w1 ++ "/" ++ w2 ++ yyyy ++ w3 ++ "/" ++ w4 ++ sss ++ ws ++ ser ++ post)) =
      some { year := yyyy, base_prefix := g ++ "-" ++ yyyy ++ "-" ++ sss ++ "-" } :=
  parse_structured pre g w1 w2 yyyy w3 w4 sss ws ser post hpre hg hgne hy hylen
    hw1 hw2 hw3 hw4 hs hslen hws hwsne hser hserne

/-- Witness for C3: a concrete identifier embedded in surrounding text. -/
theorem C3_parse_extracts_year_and_prefix_witness :
    parse_object_number (.str
        ("Nr. " ++ "12" ++ " " ++ "/" ++ "" ++ "1997" ++ "" ++ "/" ++ " " ++ "1063" ++
          " " ++ "45" ++ "x")) =
      some { year := "1997", base_prefix := "12-1997-1063-" } :=
  C3_parse_extracts_year_and_prefix "Nr. " "12" " " "" "1997" "" " " "1063" " " "45" "x"
    (by decide) (by decide) (by decide) (by decide) (by decide) (by decide) (by decide)
    (by decide) (by decide) (by decide) (by decide) (by decide) (by decide) (by decide)
    (by decide)

/-- C4: a non-string cell, the empty string, and any string that does not
contain the identifier pattern anywhere all parse to `None`; the
embedding is a total function, so no exception can be raised. -/
theorem C4_parse_returns_none :
    (∀ c : PyCell, PyCell.isStr c = false → parse_object_number c = none) ∧
    parse_object_number (.str "") = none ∧
    (∀ s : String, ¬ ContainsObjPattern s → parse_object_number (.str s) = none) := by
  refine ⟨?_, rfl, ?_⟩
  · intro c hc
    cases c with
    | str s => simp [PyCell.isStr] at hc
    | nan => rfl
    | other t => rfl
  · intro s hnc
    cases hp : parse_object_number (.str s) with
    | none => rfl
    | some k => exact absurd (contains_of_parse_some s k hp) hnc

/-- Witness for C4 at the null cell and a patternless string. -/
theorem C4_parse_returns_none_witness :
    PyCell.isStr PyCell.nan = false ∧ parse_object_number PyCell.nan = none ∧
    ¬ ContainsObjPattern "no number here" ∧
    parse_object_number (.str "no number here") = none := by
  have hnc : ¬ ContainsObjPattern "no number here" := by
    intro h
    obtain ⟨k, hk⟩ := parse_some_of_contains _ h
    have hn : parse_object_number_str "no number here" = none := by decide
    rw [hn] at hk
    exact Option.noConfusion hk
  exact ⟨by decide, C4_parse_returns_none.1 PyCell.nan (by decide), hnc,
    C4_parse_returns_none.2.2 "no number here" hnc⟩

/-- C6 counterexample: the parser's result dictionary carries only `year`
and `base_prefix` — the claim says the four captured groups are stored as
`group`, `year`, `sequence` and `series`, but two identifiers that differ
only in the series produce bitwise-identical results, which is impossible
if the series (or the other groups) were stored in the result. -/
theorem C6_counterexample :
    parse_object_number (.str "1/1997/1063 0") =
      some { year := "1997", base_prefix := "1-1997-1063-" } ∧
    parse_object_number (.str "1/1997/1063 0") =
      parse_object_number (.str "1/1997/1063 2") := by
  constructor
  · decide
  · decide

/-- C6 (amended): on a successful match the parser returns only the year
and the derived prefix `g-yyyy-sss-`; groups one and three survive only
inside the prefix, and the fourth captured group (the series) is
discarded by the parser itself — the result is unchanged under any change
of the series digits and of the text after them. -/
theorem C6_amended_only_year_and_prefix
    (pre g w1 w2 yyyy w3 w4 sss ws ser1 ser2 post1 post2 : String)
    (hpre : pre.toList.all (fun c => !isPyDigit c) = true)
    (hg : g.toList.all isPyDigit = true) (hgne : g ≠ "")
    (hy : yyyy.toList.all isPyDigit = true) (hylen : yyyy.length = 4)
    (hw1 : w1.toList.all isPySpace = true) (hw2 : w2.toList.all isPySpace = true)
    (hw3 : w3.toList.all isPySpace = true) (hw4 : w4.toList.all isPySpace = true)
    (hs : sss.toList.all isPyDigit = true) (hslen : sss.length = 3 ∨ sss.length = 4)
    (hws : ws.toList.all isPySpace = true) (hwsne : ws ≠ "")
    (hser1 : ser1.toList.all isPyDigit = true) (hser1ne : ser1 ≠ "")
    (hser2 : ser2.toList.all isPyDigit = true) (hser2ne : ser2 ≠ "") :
    parse_object_number (.str
        (pre ++ g ++ w1 ++ "/" ++ w2 ++ yyyy ++ w3 ++ "/" ++ w4 ++ sss ++ ws ++ ser1 ++ post1)) =
      some { year := yyyy, base_prefix := g ++ "-" ++ yyyy ++ "-" ++ sss ++ "-" } ∧
    parse_object_number (.str
        (pre ++ g ++ w1 ++ "/" ++ w2 ++ yyyy ++ w3 ++ "/" ++ w4 ++ sss ++ ws ++ ser1 ++ post1)) =
      parse_object_number (.str
        (pre ++ g ++ w1 ++ "/" ++ w2 ++ yyyy ++ w3 ++ "/" ++ w4 ++ sss ++ ws ++ ser2 ++ post2)) := by
  have h1 := parse_structured pre g w1 w2 yyyy w3 w4 sss ws ser1 post1 hpre hg hgne hy hylen
    hw1 hw2 hw3 hw4 hs hslen hws hwsne hser1 hser1ne
  have h2 := parse_structured pre g w1 w2 yyyy w3 w4 sss ws ser2 post2 hpre hg hgne hy hylen
    hw1 hw2 hw3 hw4 hs hslen hws hwsne hser2 hser2ne
  exact ⟨h1, by rw [h1, h2]⟩

/-- Witness for the amended C6 with series `0` versus `2`. -/
theorem C6_amended_only_year_and_prefix_witness :
    parse_object_number (.str ("" ++ "1" ++ "" ++ "/" ++ "" ++ "1997" ++ "" ++ "/" ++ "" ++
        "1063" ++ " " ++ "0" ++ "")) =
      some { year := "1997", base_prefix := "1-1997-1063-" } ∧
    parse_object_number (.str ("" ++ "1" ++ "" ++ "/" ++ "" ++ "1997" ++ "" ++ "/" ++ "" ++
        "1063" ++ " " ++ "0" ++ "")) =
      parse_object_number (.str ("" ++ "1" ++ "" ++ "/" ++ "" ++ "1997" ++ "" ++ "/" ++ "" ++
        "1063" ++ " " ++ "2" ++ "")) :=
  C6_amended_only_year_and_prefix "" "1" "" "" "1997" "" "" "1063" " " "0" "2" "" ""
    (by decide) (by decide) (by decide) (by decide) (by decide) (by decide) (by decide)
    (by decide) (by decide) (by decide) (by decide) (by decide) (by decide) (by decide)
    (by decide) (by decide) (by decide)

/-!  Unfolding equations for the aggregation loop, one per branch. -/

theorem buildLoop_cons_noparse (fs : PyFS) (root : String)
    (srcm : List ((String × String) × List String)) (raw : PyCell) (rest : List PyCell)
    (seen : List (String × String)) (hp : parse_object_number raw = none) :
    buildLoop fs root srcm (raw :: rest) seen =
      ((buildLoop fs root srcm rest seen).1,
       { obj_id_raw := raw, year := none, base_prefix := none,
         reason := reasonNoPattern } :: (buildLoop fs root srcm rest seen).2) := by
  simp only [buildLoop, hp]

theorem buildLoop_cons_seen (fs : PyFS) (root : String)
    (srcm : List ((String × String) × List String)) (raw : PyCell) (rest : List PyCell)
    (seen : List (String × String)) (p : ParsedKey) (hp : parse_object_number raw = some p)
    (hseen : keyOfParsed p ∈ seen) :
    buildLoop fs root srcm (raw :: rest) seen = buildLoop fs root srcm rest seen := by
  simp only [buildLoop, hp, if_pos hseen]

theorem buildLoop_cons_nofiles (fs : PyFS) (root : String)
    (srcm : List ((String × String) × List String)) (raw : PyCell) (rest : List PyCell)
    (seen : List (String × String)) (p : ParsedKey) (hp : parse_object_number raw = some p)
    (hseen : keyOfParsed p ∉ seen)
    (hm : (find_matching_files_in_year fs root (ParsedKey.year p)
      (ParsedKey.base_prefix p)).isEmpty = true) :
    buildLoop fs root srcm (raw :: rest) seen =
      ((buildLoop fs root srcm rest (keyOfParsed p :: seen)).1,
       { obj_id_raw := raw, year := some (ParsedKey.year p),
         base_prefix := some (ParsedKey.base_prefix p),
         reason := reasonNoFiles (ParsedKey.year p) (ParsedKey.base_prefix p) } ::
         (buildLoop fs root srcm rest (keyOfParsed p :: seen)).2) := by
  simp only [buildLoop, hp, if_neg hseen, hm, if_true]

theorem buildLoop_cons_link (fs : PyFS) (root : String)
    (srcm : List ((String × String) × List String)) (raw : PyCell) (rest : List PyCell)
    (seen : List (String × String)) (p : ParsedKey) (hp : parse_object_number raw = some p)
    (hseen : keyOfParsed p ∉ seen)
    (hm : (find_matching_files_in_year fs root (ParsedKey.year p)
      (ParsedKey.base_prefix p)).isEmpty = false) :
    buildLoop fs root srcm (raw :: rest) seen =
      ({ obj_id_raw := raw, year := ParsedKey.year p,
         base_prefix := ParsedKey.base_prefix p,
         images := (find_matching_files_in_year fs root (ParsedKey.year p)
           (ParsedKey.base_prefix p)).map ospBasename,
         image_count := (find_matching_files_in_year fs root (ParsedKey.year p)
           (ParsedKey.base_prefix p)).length,
         source_files := String.intercalate ", "
           (pySorted (srcGet srcm (keyOfParsed p))) } ::
         (buildLoop fs root srcm rest (keyOfParsed p :: seen)).1,
       (buildLoop fs root srcm rest (keyOfParsed p :: seen)).2) := by
  simp only [buildLoop, hp, if_neg hseen, hm, Bool.false_eq_true, if_false]

/-- The dedup key carried by a linked output row. -/
def keyOfRow (r : LinkedRow) : String × String :=
  (LinkedRow.year r, pyLower (LinkedRow.base_prefix r))

/-- The dedup key carried by a miss row, when it has one (no-files misses
carry year and prefix; parse-failure misses carry neither). -/
def keyOfMiss (m : MissRow) : Option (String × String) :=
  match MissRow.year m, MissRow.base_prefix m with
  | some y, some b => some (y, pyLower b)
  | _, _ => none

theorem buildLoop_keys (fs : PyFS) (root : String)
    (srcm : List ((String × String) × List String)) :
    ∀ (l : List PyCell) (seen : List (String × String)),
    (((buildLoop fs root srcm l seen).1.map keyOfRow ++
      (buildLoop fs root srcm l seen).2.filterMap keyOfMiss).Nodup) ∧
    (∀ k ∈ ((buildLoop fs root srcm l seen).1.map keyOfRow ++
      (buildLoop fs root srcm l seen).2.filterMap keyOfMiss), k ∉ seen) := by
  intro l
  induction l with
  | nil =>
    intro seen
    constructor
    · simp [buildLoop]
    · simp [buildLoop]
  | cons raw rest ih =>
    intro seen
    cases hp : parse_object_number raw with
    | none =>
      rw [buildLoop_cons_noparse fs root srcm raw rest seen hp]
      simp only [List.filterMap_cons, keyOfMiss]
      exact ih seen
    | some p =>
      by_cases hseen : keyOfParsed p ∈ seen
      · rw [buildLoop_cons_seen fs root srcm raw rest seen p hp hseen]
        exact ih seen
      · cases hm : (find_matching_files_in_year fs root (ParsedKey.year p)
            (ParsedKey.base_prefix p)).isEmpty with
        | true =>
          rw [buildLoop_cons_nofiles fs root srcm raw rest seen p hp hseen hm]
          obtain ⟨h1, h2⟩ := ih (keyOfParsed p :: seen)
          have hkm : keyOfMiss
              { obj_id_raw := raw, year := some (ParsedKey.year p),
                base_prefix := some (ParsedKey.base_prefix p),
                reason := reasonNoFiles (ParsedKey.year p) (ParsedKey.base_prefix p) } =
              some (keyOfParsed p) := rfl
          constructor
          · simp only [List.filterMap_cons, hkm]
            rw [List.nodup_middle, List.nodup_cons]
            refine ⟨?_, h1⟩
            intro hkin
            exact (h2 _ hkin) (by simp)
          · intro k hk
            simp only [List.filterMap_cons, hkm] at hk
            rw [List.mem_append] at hk
            rcases hk with hk | hk
            · have hfresh := h2 k (List.mem_append.mpr (Or.inl hk))
              intro hkseen
              exact hfresh (List.mem_cons_of_mem _ hkseen)
            · rcases List.mem_cons.mp hk with rfl | hk
              · exact hseen
              · have hfresh := h2 k (List.mem_append.mpr (Or.inr hk))
                intro hkseen
                exact hfresh (List.mem_cons_of_mem _ hkseen)
        | false =>
          rw [buildLoop_cons_link fs root srcm raw rest seen p hp hseen hm]
          obtain ⟨h1, h2⟩ := ih (keyOfParsed p :: seen)
          have hkr : keyOfRow
              { obj_id_raw := raw, year := ParsedKey.year p,
                base_prefix := ParsedKey.base_prefix p,
                images := (find_matching_files_in_year fs root (ParsedKey.year p)
                  (ParsedKey.base_prefix p)).map ospBasename,
                image_count := (find_matching_files_in_year fs root (ParsedKey.year p)
                  (ParsedKey.base_prefix p)).length,
                source_files := String.intercalate ", "
                  (pySorted (srcGet srcm (keyOfParsed p))) } = keyOfParsed p := rfl
          constructor
          · simp only [List.map_cons, hkr, List.cons_append, List.nodup_cons]
            refine ⟨?_, h1⟩
            intro hkin
            exact (h2 _ hkin) (by simp)
          · intro k hk
            simp only [List.map_cons, hkr, List.cons_append] at hk
            rcases List.mem_cons.mp hk with rfl | hk
            · exact hseen
            · have hfresh := h2 k hk
              intro hkseen
              exact hfresh (List.mem_cons_of_mem _ hkseen)

theorem build_eq_loop (meta : List MetaRow) (fs : PyFS) (root : String) :
    build_links_like_group meta fs root =
      buildLoop fs root (buildSrcMap meta) (seriesOf meta) [] := by
  cases meta with
  | nil => rfl
  | cons a t => rfl

theorem buildLoop_rows_shape (fs : PyFS) (root : String)
    (srcm : List ((String × String) × List String)) :
    ∀ (l : List PyCell) (seen : List (String × String)),
    ∀ r ∈ (buildLoop fs root srcm l seen).1,
      parse_object_number (LinkedRow.obj_id_raw r) =
        some { year := LinkedRow.year r, base_prefix := LinkedRow.base_prefix r } ∧
      LinkedRow.images r = (find_matching_files_in_year fs root (LinkedRow.year r)
        (LinkedRow.base_prefix r)).map ospBasename ∧
      (find_matching_files_in_year fs root (LinkedRow.year r)
        (LinkedRow.base_prefix r)).isEmpty = false ∧
      LinkedRow.image_count r = (find_matching_files_in_year fs root (LinkedRow.year r)
        (LinkedRow.base_prefix r)).length ∧
      LinkedRow.source_files r =
        String.intercalate ", " (pySorted (srcGet srcm (keyOfRow r))) := by
  intro l
  induction l with
  | nil =>
    intro seen r hr
    simp [buildLoop] at hr
  | cons raw rest ih =>
    intro seen r hr
    cases hp : parse_object_number raw with
    | none =>
      rw [buildLoop_cons_noparse fs root srcm raw rest seen hp] at hr
      exact ih seen r hr
    | some p =>
      by_cases hseen : keyOfParsed p ∈ seen
      · rw [buildLoop_cons_seen fs root srcm raw rest seen p hp hseen] at hr
        exact ih seen r hr
      · cases hm : (find_matching_files_in_year fs root (ParsedKey.year p)
            (ParsedKey.base_prefix p)).isEmpty with
        | true =>
          rw [buildLoop_cons_nofiles fs root srcm raw rest seen p hp hseen hm] at hr
          exact ih (keyOfParsed p :: seen) r hr
        | false =>
          rw [buildLoop_cons_link fs root srcm raw rest seen p hp hseen hm] at hr
          rcases List.mem_cons.mp hr with rfl | hr
          · exact ⟨hp, rfl, hm, rfl, rfl⟩
          · exact ih (keyOfParsed p :: seen) r hr

theorem buildLoop_miss_shape (fs : PyFS) (root : String)
    (srcm : List ((String × String) × List String)) :
    ∀ (l : List PyCell) (seen : List (String × String)),
    ∀ m ∈ (buildLoop fs root srcm l seen).2,
      (MissRow.year m = none ∧ MissRow.base_prefix m = none ∧
        MissRow.reason m = reasonNoPattern ∧
        parse_object_number (MissRow.obj_id_raw m) = none) ∨
      (∃ y b, MissRow.year m = some y ∧ MissRow.base_prefix m = some b ∧
        MissRow.reason m = reasonNoFiles y b ∧
        parse_object_number (MissRow.obj_id_raw m) = some { year := y, base_prefix := b } ∧
        find_matching_files_in_year fs root y b = []) := by
  intro l
  induction l with
  | nil =>
    intro seen m hm
    simp [buildLoop] at hm
  | cons raw rest ih =>
    intro seen m hmem
    cases hp : parse_object_number raw with
    | none =>
      rw [buildLoop_cons_noparse fs root srcm raw rest seen hp] at hmem
      rcases List.mem_cons.mp hmem with rfl | hmem
      · exact Or.inl ⟨rfl, rfl, rfl, hp⟩
      · exact ih seen m hmem
    | some p =>
      by_cases hseen : keyOfParsed p ∈ seen
      · rw [buildLoop_cons_seen fs root srcm raw rest seen p hp hseen] at hmem
        exact ih seen m hmem
      · cases hm : (find_matching_files_in_year fs root (ParsedKey.year p)
            (ParsedKey.base_prefix p)).isEmpty with
        | true =>
          rw [buildLoop_cons_nofiles fs root srcm raw rest seen p hp hseen hm] at hmem
          rcases List.mem_cons.mp hmem with rfl | hmem
          · exact Or.inr ⟨ParsedKey.year p, ParsedKey.base_prefix p, rfl, rfl, rfl, hp,
              List.isEmpty_iff.mp hm⟩
          · exact ih (keyOfParsed p :: seen) m hmem
        | false =>
          rw [buildLoop_cons_link fs root srcm raw rest seen p hp hseen hm] at hmem
          exact ih (keyOfParsed p :: seen) m hmem

theorem buildLoop_sublist (fs : PyFS) (root : String)
    (srcm : List ((String × String) × List String)) :
    ∀ (l : List PyCell) (seen : List (String × String)),
    List.Sublist ((buildLoop fs root srcm l seen).1.map LinkedRow.obj_id_raw) l ∧
    List.Sublist ((buildLoop fs root srcm l seen).2.map MissRow.obj_id_raw) l := by
  intro l
  induction l with
  | nil =>
    intro seen
    constructor
    · simp [buildLoop]
    · simp [buildLoop]
  | cons raw rest ih =>
    intro seen
    cases hp : parse_object_number raw with
    | none =>
      rw [buildLoop_cons_noparse fs root srcm raw rest seen hp]
      exact ⟨List.Sublist.cons raw (ih seen).1, List.Sublist.cons₂ raw (ih seen).2⟩
    | some p =>
      by_cases hseen : keyOfParsed p ∈ seen
      · rw [buildLoop_cons_seen fs root srcm raw rest seen p hp hseen]
        exact ⟨List.Sublist.cons raw (ih seen).1, List.Sublist.cons raw (ih seen).2⟩
      · cases hm : (find_matching_files_in_year fs root (ParsedKey.year p)
            (ParsedKey.base_prefix p)).isEmpty with
        | true =>
          rw [buildLoop_cons_nofiles fs root srcm raw rest seen p hp hseen hm]
          exact ⟨List.Sublist.cons raw (ih (keyOfParsed p :: seen)).1,
            List.Sublist.cons₂ raw (ih (keyOfParsed p :: seen)).2⟩
        | false =>
          rw [buildLoop_cons_link fs root srcm raw rest seen p hp hseen hm]
          exact ⟨List.Sublist.cons₂ raw (ih (keyOfParsed p :: seen)).1,
            List.Sublist.cons raw (ih (keyOfParsed p :: seen)).2⟩

theorem buildLoop_rep (fs : PyFS) (root : String)
    (srcm : List ((String × String) × List String)) :
    ∀ (l : List PyCell) (seen : List (String × String)),
    (∀ r ∈ (buildLoop fs root srcm l seen).1,
      keyOfRow r ∉ seen ∧
      l.find? (fun v => keyOfCell v == some (keyOfRow r)) = some (LinkedRow.obj_id_raw r)) ∧
    (∀ m ∈ (buildLoop fs root srcm l seen).2, ∀ k, keyOfMiss m = some k →
      k ∉ seen ∧ l.find? (fun v => keyOfCell v == some k) = some (MissRow.obj_id_raw m)) := by
  intro l
  induction l with
  | nil =>
    intro seen
    constructor
    · intro r hr
      simp [buildLoop] at hr
    · intro m hm
      simp [buildLoop] at hm
  | cons raw rest ih =>
    intro seen
    cases hp : parse_object_number raw with
    | none =>
      have hkc : keyOfCell raw = none := by
        unfold keyOfCell
        rw [hp]
        rfl
      have hskip : ∀ k : String × String,
          List.find? (fun v => keyOfCell v == some k) (raw :: rest) =
          List.find? (fun v => keyOfCell v == some k) rest := by
        intro k
        have hfalse : (keyOfCell raw == some k) = false := by rw [hkc]; rfl
        simp [List.find?_cons, hfalse]
      rw [buildLoop_cons_noparse fs root srcm raw rest seen hp]
      constructor
      · intro r hr
        obtain ⟨h1, h2⟩ := (ih seen).1 r hr
        exact ⟨h1, by rw [hskip]; exact h2⟩
      · intro m hmem k hk
        rcases List.mem_cons.mp hmem with rfl | hmem
        · exact absurd hk (by simp [keyOfMiss])
        · obtain ⟨h1, h2⟩ := (ih seen).2 m hmem k hk
          exact ⟨h1, by rw [hskip]; exact h2⟩
    | some p =>
      have hkc : keyOfCell raw = some (keyOfParsed p) := by
        unfold keyOfCell
        rw [hp]
        rfl
      have hhit : ∀ k : String × String, k = keyOfParsed p →
          List.find? (fun v => keyOfCell v == some k) (raw :: rest) = some raw := by
        intro k hkk
        subst hkk
        have htrue : (keyOfCell raw == some (keyOfParsed p)) = true := by
          rw [hkc]
          exact beq_iff_eq.mpr rfl
        simp [List.find?_cons, htrue]
      have hskip : ∀ k : String × String, k ≠ keyOfParsed p →
          List.find? (fun v => keyOfCell v == some k) (raw :: rest) =
          List.find? (fun v => keyOfCell v == some k) rest := by
        intro k hkk
        have hfalse : (keyOfCell raw == some k) = false := by
          rw [hkc]
          cases hb : (some (keyOfParsed p) == some k) with
          | false => rfl
          | true => exact absurd (eq_of_beq hb) (by
              intro he
              injection he with he
              exact hkk he.symm)
        simp [List.find?_cons, hfalse]
      by_cases hseen : keyOfParsed p ∈ seen
      · rw [buildLoop_cons_seen fs root srcm raw rest seen p hp hseen]
        constructor
        · intro r hr
          obtain ⟨h1, h2⟩ := (ih seen).1 r hr
          have hne : keyOfRow r ≠ keyOfParsed p := fun he => h1 (he ▸ hseen)
          exact ⟨h1, by rw [hskip _ hne]; exact h2⟩
        · intro m hmem k hk
          obtain ⟨h1, h2⟩ := (ih seen).2 m hmem k hk
          have hne : k ≠ keyOfParsed p := fun he => h1 (he ▸ hseen)
          exact ⟨h1, by rw [hskip _ hne]; exact h2⟩
      · cases hm : (find_matching_files_in_year fs root (ParsedKey.year p)
            (ParsedKey.base_prefix p)).isEmpty with
        | true =>
          rw [buildLoop_cons_nofiles fs root srcm raw rest seen p hp hseen hm]
          constructor
          · intro r hr
            obtain ⟨h1, h2⟩ := (ih (keyOfParsed p :: seen)).1 r hr
            have hne : keyOfRow r ≠ keyOfParsed p := fun he => h1 (by rw [he]; simp)
            exact ⟨fun hin => h1 (List.mem_cons_of_mem _ hin), by rw [hskip _ hne]; exact h2⟩
          · intro m hmem k hk
            rcases List.mem_cons.mp hmem with rfl | hmem
            · have hkeq : k = keyOfParsed p := by
                have : keyOfMiss
                    { obj_id_raw := raw, year := some (ParsedKey.year p),
                      base_prefix := some (ParsedKey.base_prefix p),
                      reason := reasonNoFiles (ParsedKey.year p) (ParsedKey.base_prefix p) } =
                    some (keyOfParsed p) := rfl
                rw [this] at hk
                injection hk with hk
                exact hk.symm
              exact ⟨hkeq ▸ hseen, hhit k hkeq⟩
            · obtain ⟨h1, h2⟩ := (ih (keyOfParsed p :: seen)).2 m hmem k hk
              have hne : k ≠ keyOfParsed p := fun he => h1 (by rw [he]; simp)
              exact ⟨fun hin => h1 (List.mem_cons_of_mem _ hin), by rw [hskip _ hne]; exact h2⟩
        | false =>
          rw [buildLoop_cons_link fs root srcm raw rest seen p hp hseen hm]
          constructor
          · intro r hr
            rcases List.mem_cons.mp hr with rfl | hr
            · exact ⟨hseen, hhit _ rfl⟩
            · obtain ⟨h1, h2⟩ := (ih (keyOfParsed p :: seen)).1 r hr
              have hne : keyOfRow r ≠ keyOfParsed p := fun he => h1 (by rw [he]; simp)
              exact ⟨fun hin => h1 (List.mem_cons_of_mem _ hin), by rw [hskip _ hne]; exact h2⟩
          · intro m hmem k hk
            obtain ⟨h1, h2⟩ := (ih (keyOfParsed p :: seen)).2 m hmem k hk
            have hne : k ≠ keyOfParsed p := fun he => h1 (by rw [he]; simp)
            exact ⟨fun hin => h1 (List.mem_cons_of_mem _ hin), by rw [hskip _ hne]; exact h2⟩

theorem buildLoop_coverage (fs : PyFS) (root : String)
    (srcm : List ((String × String) × List String)) :
    ∀ (l : List PyCell) (seen : List (String × String)), ∀ v ∈ l,
    (∀ k, keyOfCell v = some k → k ∉ seen →
      k ∈ ((buildLoop fs root srcm l seen).1.map keyOfRow ++
        (buildLoop fs root srcm l seen).2.filterMap keyOfMiss)) ∧
    (keyOfCell v = none → ∃ m ∈ (buildLoop fs root srcm l seen).2,
      MissRow.obj_id_raw m = v) := by
  intro l
  induction l with
  | nil =>
    intro seen v hv
    simp at hv
  | cons raw rest ih =>
    intro seen v hv
    cases hp : parse_object_number raw with
    | none =>
      have hkc : keyOfCell raw = none := by unfold keyOfCell; rw [hp]; rfl
      rw [buildLoop_cons_noparse fs root srcm raw rest seen hp]
      rcases List.mem_cons.mp hv with rfl | hv
      · constructor
        · intro k hk
          rw [hkc] at hk
          exact absurd hk (by simp)
        · intro _
          exact ⟨_, List.mem_cons_self _ _, rfl⟩
      · constructor
        · intro k hk hks
          have := ((ih seen) v hv).1 k hk hks
          simp only [List.filterMap_cons, keyOfMiss]
          exact this
        · intro hk
          obtain ⟨m, hm1, hm2⟩ := ((ih seen) v hv).2 hk
          exact ⟨m, List.mem_cons_of_mem _ hm1, hm2⟩
    | some p =>
      have hkc : keyOfCell raw = some (keyOfParsed p) := by
        unfold keyOfCell; rw [hp]; rfl
      by_cases hseen : keyOfParsed p ∈ seen
      · rw [buildLoop_cons_seen fs root srcm raw rest seen p hp hseen]
        rcases List.mem_cons.mp hv with rfl | hv
        · constructor
          · intro k hk hks
            rw [hkc] at hk
            injection hk with hk
            subst hk
            exact absurd hseen hks
          · intro hk
            rw [hkc] at hk
            exact absurd hk (by simp)
        · exact ih seen v hv
      · cases hm : (find_matching_files_in_year fs root (ParsedKey.year p)
            (ParsedKey.base_prefix p)).isEmpty with
        | true =>
          rw [buildLoop_cons_nofiles fs root srcm raw rest seen p hp hseen hm]
          have hkm : keyOfMiss
              { obj_id_raw := raw, year := some (ParsedKey.year p),
                base_prefix := some (ParsedKey.base_prefix p),
                reason := reasonNoFiles (ParsedKey.year p) (ParsedKey.base_prefix p) } =
              some (keyOfParsed p) := rfl
          rcases List.mem_cons.mp hv with rfl | hv
          · constructor
            · intro k hk
              rw [hkc] at hk
              injection hk with hk
              subst hk
              intro _
              simp only [List.filterMap_cons, hkm]
              exact List.mem_append.mpr (Or.inr (List.mem_cons_self _ _))
            · intro hk
              rw [hkc] at hk
              exact absurd hk (by simp)
          · constructor
            · intro k hk hks
              by_cases hkey : k = keyOfParsed p
              · subst hkey
                simp only [List.filterMap_cons, hkm]
                exact List.mem_append.mpr (Or.inr (List.mem_cons_self _ _))
              · have := ((ih (keyOfParsed p :: seen)) v hv).1 k hk
                  (by
                    intro hin
                    rcases List.mem_cons.mp hin with he | hin
                    · exact hkey he
                    · exact hks hin)
                simp only [List.filterMap_cons, hkm]
                rcases List.mem_append.mp this with hthis | hthis
                · exact List.mem_append.mpr (Or.inl hthis)
                · exact List.mem_append.mpr (Or.inr (List.mem_cons_of_mem _ hthis))
            · intro hk
              obtain ⟨m, hm1, hm2⟩ := ((ih (keyOfParsed p :: seen)) v hv).2 hk
              exact ⟨m, List.mem_cons_of_mem _ hm1, hm2⟩
        | false =>
          rw [buildLoop_cons_link fs root srcm raw rest seen p hp hseen hm]
          have hkr : keyOfRow
              { obj_id_raw := raw, year := ParsedKey.year p,
                base_prefix := ParsedKey.base_prefix p,
                images := (find_matching_files_in_year fs root (ParsedKey.year p)
                  (ParsedKey.base_prefix p)).map ospBasename,
                image_count := (find_matching_files_in_year fs root (ParsedKey.year p)
                  (ParsedKey.base_prefix p)).length,
                source_files := String.intercalate ", "
                  (pySorted (srcGet srcm (keyOfParsed p))) } = keyOfParsed p := rfl
          rcases List.mem_cons.mp hv with rfl | hv
          · constructor
            · intro k hk
              rw [hkc] at hk
              injection hk with hk
              subst hk
              intro _
              simp only [List.map_cons, hkr, List.cons_append]
              exact List.mem_cons_self _ _
            · intro hk
              rw [hkc] at hk
              exact absurd hk (by simp)
          · constructor
            · intro k hk hks
              by_cases hkey : k = keyOfParsed p
              · subst hkey
                simp only [List.map_cons, hkr, List.cons_append]
                exact List.mem_cons_self _ _
              · have := ((ih (keyOfParsed p :: seen)) v hv).1 k hk
                  (by
                    intro hin
                    rcases List.mem_cons.mp hin with he | hin
                    · exact hkey he
                    · exact hks hin)
                simp only [List.map_cons, hkr, List.cons_append]
                exact List.mem_cons_of_mem _ this
            · intro hk
              obtain ⟨m, hm1, hm2⟩ := ((ih (keyOfParsed p :: seen)) v hv).2 hk
              exact ⟨m, hm1, hm2⟩

theorem srcUpdate_get_eq (m : List ((String × String) × List String))
    (k : String × String) (s : String) (k0 : String × String) :
    srcGet (srcUpdate m k s) k0 =
      if k0 = k then (if s ∈ srcGet m k then srcGet m k else (srcGet m k).concat s)
      else srcGet m k0 := by
  induction m with
  | nil =>
    by_cases h : k0 = k
    · subst h
      simp [srcUpdate, srcGet]
    · have hne : ¬ (k = k0) := fun he => h he.symm
      simp [srcUpdate, srcGet, h, hne]
  | cons e t ih =>
    obtain ⟨ke, le⟩ := e
    by_cases hek : ke = k
    · subst hek
      by_cases hk0 : k0 = ke
      · subst hk0
        simp [srcUpdate, srcGet]
      · have hne : ¬ (ke = k0) := fun he => hk0 he.symm
        simp [srcUpdate, srcGet, hk0, hne]
    · by_cases hk0 : ke = k0
      · subst hk0
        have hne : ¬ (ke = k) := hek
        simp only [srcUpdate, if_neg hne, srcGet, if_pos rfl]
        simp [hek]
      · simp only [srcUpdate, if_neg hek, srcGet, if_neg hk0]
        exact ih

theorem srcUpdate_mem (m : List ((String × String) × List String))
    (k : String × String) (s x : String) (k0 : String × String) :
    x ∈ srcGet (srcUpdate m k s) k0 ↔ x ∈ srcGet m k0 ∨ (k0 = k ∧ x = s) := by
  rw [srcUpdate_get_eq]
  by_cases h : k0 = k
  · subst h
    by_cases hs : s ∈ srcGet m k0
    · simp only [if_pos rfl, if_pos hs, true_and]
      constructor
      · exact fun hx => Or.inl hx
      · rintro (hx | rfl)
        · exact hx
        · exact hs
    · simp only [if_pos rfl, if_neg hs, List.concat_eq_append, List.mem_append,
        List.mem_singleton, true_and]
      simp
  · simp [if_neg h, h]

theorem srcUpdate_nodup (m : List ((String × String) × List String))
    (k : String × String) (s : String) (h : ∀ k0, (srcGet m k0).Nodup) :
    ∀ k0, (srcGet (srcUpdate m k s) k0).Nodup := by
  intro k0
  rw [srcUpdate_get_eq]
  by_cases hk : k0 = k
  · rw [if_pos hk]
    by_cases hs : s ∈ srcGet m k
    · rw [if_pos hs]
      exact h k
    · rw [if_neg hs, List.concat_eq_append]
      rw [show srcGet m k ++ [s] = srcGet m k ++ s :: [] from rfl, List.nodup_middle]
      simp only [List.append_nil, List.nodup_cons]
      exact ⟨hs, h k⟩
  · rw [if_neg hk]
    exact h k0

theorem srcFold_mem (meta : List MetaRow) :
    ∀ (m0 : List ((String × String) × List String)) (k : String × String) (x : String),
    x ∈ srcGet (meta.foldl srcStep m0) k ↔
      x ∈ srcGet m0 k ∨
      ∃ r ∈ meta, keyOfCell (MetaRow.obj_id_raw r) = some k ∧ MetaRow.source_file r = x := by
  induction meta with
  | nil =>
    intro m0 k x
    simp
  | cons r t ih =>
    intro m0 k x
    rw [List.foldl_cons, ih]
    cases hkc : keyOfCell (MetaRow.obj_id_raw r) with
    | none =>
      have hstep : srcStep m0 r = m0 := by unfold srcStep; rw [hkc]
      rw [hstep]
      constructor
      · rintro (hx | ⟨r1, hr1, hx⟩)
        · exact Or.inl hx
        · exact Or.inr ⟨r1, List.mem_cons_of_mem _ hr1, hx⟩
      · rintro (hx | ⟨r1, hr1, hx⟩)
        · exact Or.inl hx
        · rcases List.mem_cons.mp hr1 with rfl | hr1
          · rw [hkc] at hx
            exact absurd hx.1 (by simp)
          · exact Or.inr ⟨r1, hr1, hx⟩
    | some k1 =>
      have hstep : srcStep m0 r = srcUpdate m0 k1 (MetaRow.source_file r) := by
        unfold srcStep
        rw [hkc]
      rw [hstep, srcUpdate_mem]
      constructor
      · rintro ((hx | ⟨hk, hx⟩) | ⟨r1, hr1, hx⟩)
        · exact Or.inl hx
        · subst hk
          exact Or.inr ⟨r, List.mem_cons_self _ _, hkc, hx.symm⟩
        · exact Or.inr ⟨r1, List.mem_cons_of_mem _ hr1, hx⟩
      · rintro (hx | ⟨r1, hr1, hx⟩)
        · exact Or.inl (Or.inl hx)
        · rcases List.mem_cons.mp hr1 with rfl | hr1
          · rw [hkc] at hx
            have hk1 : k1 = k := by
              injection hx.1 with he
            exact Or.inl (Or.inr ⟨hk1.symm, hx.2.symm⟩)
          · exact Or.inr ⟨r1, hr1, hx⟩

theorem srcFold_nodup (meta : List MetaRow) :
    ∀ (m0 : List ((String × String) × List String)),
    (∀ k, (srcGet m0 k).Nodup) → ∀ k, (srcGet (meta.foldl srcStep m0) k).Nodup := by
  induction meta with
  | nil => exact fun m0 h => h
  | cons r t ih =>
    intro m0 h
    rw [List.foldl_cons]
    apply ih
    cases hkc : keyOfCell (MetaRow.obj_id_raw r) with
    | none =>
      have hstep : srcStep m0 r = m0 := by unfold srcStep; rw [hkc]
      rw [hstep]
      exact h
    | some k1 =>
      have hstep : srcStep m0 r = srcUpdate m0 k1 (MetaRow.source_file r) := by
        unfold srcStep
        rw [hkc]
      rw [hstep]
      exact srcUpdate_nodup m0 k1 _ h

theorem buildSrcMap_mem (meta : List MetaRow) (k : String × String) (x : String) :
    x ∈ srcGet (buildSrcMap meta) k ↔
      ∃ r ∈ meta, keyOfCell (MetaRow.obj_id_raw r) = some k ∧ MetaRow.source_file r = x := by
  unfold buildSrcMap
  rw [srcFold_mem]
  simp [srcGet]

theorem buildSrcMap_nodup (meta : List MetaRow) (k : String × String) :
    (srcGet (buildSrcMap meta) k).Nodup := by
  unfold buildSrcMap
  exact srcFold_nodup meta [] (fun k0 => by simp [srcGet]) k

/-- C1: aggregation emits at most one LinkedGroup or no-files Miss per
distinct `(year, prefix lower-cased)` key (the emitted keys are
duplicate-free) — raw identifiers equal after trimming are deduplicated
into one cell and identifiers differing only in the series yield the same
key, so both collapse to a single output — every key among the
deduplicated, trimmed inputs is covered by some output, and a
LinkedGroup's source-file provenance is exactly the merged
(duplicate-free, sorted) set of `_source_file` labels over all input rows
whose raw identifier produces that same key. -/
theorem C1_one_output_per_key_merged_provenance (meta : List MetaRow) (fs : PyFS)
    (root : String) :
    (((build_links_like_group meta fs root).1.map keyOfRow ++
      (build_links_like_group meta fs root).2.filterMap keyOfMiss).Nodup) ∧
    (∀ v ∈ seriesOf meta, ∀ k, keyOfCell v = some k →
      k ∈ ((build_links_like_group meta fs root).1.map keyOfRow ++
        (build_links_like_group meta fs root).2.filterMap keyOfMiss)) ∧
    (∀ r ∈ (build_links_like_group meta fs root).1, ∃ lsrc,
      LinkedRow.source_files r = String.intercalate ", " lsrc ∧ lsrc.Nodup ∧
      List.Pairwise pyLe lsrc ∧
      ∀ s, s ∈ lsrc ↔ ∃ mr ∈ meta,
        keyOfCell (MetaRow.obj_id_raw mr) = some (keyOfRow r) ∧
        MetaRow.source_file mr = s) := by
  rw [build_eq_loop]
  refine ⟨(buildLoop_keys fs root (buildSrcMap meta) (seriesOf meta) []).1, ?_, ?_⟩
  · intro v hv k hk
    exact ((buildLoop_coverage fs root (buildSrcMap meta) (seriesOf meta) []) v hv).1 k hk
      (by simp)
  · intro r hr
    obtain ⟨-, -, -, -, hsrc⟩ :=
      buildLoop_rows_shape fs root (buildSrcMap meta) (seriesOf meta) [] r hr
    refine ⟨pySorted (srcGet (buildSrcMap meta) (keyOfRow r)), hsrc,
      pySorted_nodup _ (buildSrcMap_nodup meta _), pySorted_sorted _, ?_⟩
    intro s
    rw [pySorted_mem, buildSrcMap_mem]

/-- C7 counterexample: the reason strings the code writes are German, not
the English strings the claim asserts — shown for both miss kinds on
concrete inputs. -/
theorem C7_counterexample :
    (build_links_like_group [{ obj_id_raw := .str "hello", source_file := "a.xls" }]
      { dirs := [], files := [] } "root").2.map MissRow.reason = [reasonNoPattern] ∧
    reasonNoPattern ≠ "no identifier pattern found" ∧
    (build_links_like_group [{ obj_id_raw := .str "3/2001/050 0", source_file := "a.xls" }]
      { dirs := [], files := [] } "root").2.map MissRow.reason =
      [reasonNoFiles "2001" "3-2001-050-"] ∧
    reasonNoFiles "2001" "3-2001-050-" ≠
      "no files in 2001/ with prefix \x273-2001-050-\x27" :=
  ⟨by decide, by decide, by decide, by decide⟩

/-- C7 (amended): every Miss carries the reason string the code writes —
a parse failure yields the fixed German reason
"Keine Objektnummer im Format \x27g1/yyyy/g3 g4\x27 gefunden" and carries
no year or prefix, while a parse success whose resolver returns zero files
yields the German reason "Keine Dateien in <year>/ mit Präfix
\x27<prefix>\x27" and carries that year and prefix. -/
theorem C7_amended_miss_reasons (meta : List MetaRow) (fs : PyFS) (root : String) :
    ∀ m ∈ (build_links_like_group meta fs root).2,
      (MissRow.year m = none ∧ MissRow.base_prefix m = none ∧
        MissRow.reason m = reasonNoPattern ∧
        parse_object_number (MissRow.obj_id_raw m) = none) ∨
      (∃ y b, MissRow.year m = some y ∧ MissRow.base_prefix m = some b ∧
        MissRow.reason m = reasonNoFiles y b ∧
        parse_object_number (MissRow.obj_id_raw m) = some { year := y, base_prefix := b } ∧
        find_matching_files_in_year fs root y b = []) := by
  rw [build_eq_loop]
  exact buildLoop_miss_shape fs root (buildSrcMap meta) (seriesOf meta) []

/-- C8: LinkedGroups and Misses appear in the order their representatives
occur in the deduplicated, trimmed input (both output identifier lists are
sublists of it, so relative order is first-encounter order), each
LinkedGroup's representative is the first deduplicated cell whose parse
yields the group's key, and each keyed Miss's representative is the first
deduplicated cell whose parse yields that miss's key. -/
theorem C8_emission_order_and_representatives (meta : List MetaRow) (fs : PyFS)
    (root : String) :
    List.Sublist ((build_links_like_group meta fs root).1.map LinkedRow.obj_id_raw)
      (seriesOf meta) ∧
    List.Sublist ((build_links_like_group meta fs root).2.map MissRow.obj_id_raw)
      (seriesOf meta) ∧
    (∀ r ∈ (build_links_like_group meta fs root).1,
      (seriesOf meta).find? (fun v => keyOfCell v == some (keyOfRow r)) =
        some (LinkedRow.obj_id_raw r)) ∧
    (∀ m ∈ (build_links_like_group meta fs root).2, ∀ k, keyOfMiss m = some k →
      (seriesOf meta).find? (fun v => keyOfCell v == some k) =
        some (MissRow.obj_id_raw m)) := by
  rw [build_eq_loop]
  refine ⟨(buildLoop_sublist fs root (buildSrcMap meta) (seriesOf meta) []).1,
    (buildLoop_sublist fs root (buildSrcMap meta) (seriesOf meta) []).2, ?_, ?_⟩
  · intro r hr
    exact ((buildLoop_rep fs root (buildSrcMap meta) (seriesOf meta) []).1 r hr).2
  · intro m hm k hk
    exact ((buildLoop_rep fs root (buildSrcMap meta) (seriesOf meta) []).2 m hm k hk).2

theorem find_matching_sorted (fs : PyFS) (root year bp : String) :
    List.Pairwise pyLe (find_matching_files_in_year fs root year bp) := by
  unfold find_matching_files_in_year
  by_cases hdir : PyFS.isDir fs (ospJoin root year) = true
  · rw [if_pos hdir]
    exact pySorted_sorted _
  · rw [if_neg hdir]
    exact List.Pairwise.nil

theorem find_matching_form (fs : PyFS) (root year bp : String) :
    ∀ p ∈ find_matching_files_in_year fs root year bp,
      ∃ name, name ∈ PyFS.listdir fs (ospJoin root year) ∧
        p = ospJoin (ospJoin root year) name := by
  unfold find_matching_files_in_year
  by_cases hdir : PyFS.isDir fs (ospJoin root year) = true
  · rw [if_pos hdir]
    intro p hp
    rw [pySorted_mem] at hp
    obtain ⟨name, hn, hpe⟩ := List.mem_map.mp hp
    exact ⟨name, (List.mem_filter.mp hn).1, hpe.symm⟩
  · rw [if_neg hdir]
    intro p hp
    simp at hp

theorem lookup_mem_dirs (l : List (String × List String)) (d : String) (ns : List String)
    (h : l.lookup d = some ns) : (d, ns) ∈ l := by
  induction l with
  | nil => simp [List.lookup] at h
  | cons e t ih =>
    obtain ⟨k, v⟩ := e
    rw [List.lookup] at h
    cases hb : (d == k) with
    | true =>
      rw [hb] at h
      injection h with h
      subst h
      have hdk : d = k := eq_of_beq hb
      subst hdk
      exact List.mem_cons_self _ _
    | false =>
      rw [hb] at h
      exact List.mem_cons_of_mem _ (ih h)

theorem listdir_no_slash (fs : PyFS)
    (hwf : ∀ e ∈ PyFS.dirs fs, ∀ name ∈ e.2, '/' ∉ name.toList)
    (d name : String) (h : name ∈ PyFS.listdir fs d) : '/' ∉ name.toList := by
  unfold PyFS.listdir at h
  cases hl : List.lookup d (PyFS.dirs fs) with
  | none => rw [hl] at h; simp at h
  | some ns =>
    rw [hl] at h
    simp only [Option.getD_some] at h
    exact hwf (d, ns) (lookup_mem_dirs _ d ns hl) name h

theorem listLexLe_append_cancel (P x y : List Char) :
    listLexLe (P ++ x) (P ++ y) = listLexLe x y := by
  induction P with
  | nil => rfl
  | cons a t ih =>
    simp only [List.cons_append, listLexLe, if_pos rfl]
    exact ih

theorem pyLe_join_cancel (d n1 n2 : String) (h : pyLe (ospJoin d n1) (ospJoin d n2)) :
    pyLe n1 n2 := by
  unfold pyLe at h ⊢
  rw [show (ospJoin d n1).toList = (d ++ "/").toList ++ n1.toList from rfl,
      show (ospJoin d n2).toList = (d ++ "/").toList ++ n2.toList from rfl,
      listLexLe_append_cancel] at h
  exact h

theorem ospBasename_join (d n : String) (h : '/' ∉ n.toList) :
    ospBasename (ospJoin d n) = n := by
  unfold ospBasename
  have hl : (ospJoin d n).toList.reverse = n.toList.reverse ++ ('/' :: d.toList.reverse) := by
    show ((d.toList ++ ['/']) ++ n.toList).reverse = _
    rw [List.reverse_append, List.reverse_append]
    rfl
  rw [hl, takeWhile_append_left _ _ _ ?hall ?hhead]
  · rw [List.reverse_reverse]
    rfl
  case hall =>
    intro a ha
    rw [List.mem_reverse] at ha
    exact decide_eq_true (fun he => h (he ▸ ha))
  case hhead =>
    intro c hc
    simp only [List.head?_cons, Option.some.injEq] at hc
    rw [← hc]
    decide

theorem pairwise_basenames (dir : String) (l : List String)
    (hsort : List.Pairwise pyLe l)
    (hform : ∀ p ∈ l, ∃ name, p = ospJoin dir name ∧ '/' ∉ name.toList) :
    List.Pairwise pyLe (l.map ospBasename) := by
  rw [List.pairwise_map]
  refine List.Pairwise.imp_of_mem ?_ hsort
  intro a b ha hb hab
  obtain ⟨n1, rfl, h1⟩ := hform a ha
  obtain ⟨n2, rfl, h2⟩ := hform b hb
  rw [ospBasename_join dir n1 h1, ospBasename_join dir n2 h2]
  exact pyLe_join_cancel dir n1 n2 hab

/-- C9: every linked row has a non-empty image list of basenames sorted
lexicographically, its `image_count` equals the length of that list, the
list is exactly the basenames of what the resolver returns for the row's
year and prefix, and that resolver result is non-empty — a key resolving
to zero files never becomes a linked row.  (The filesystem is assumed
well-formed: listed names contain no path separator, as `os.listdir`
guarantees.) -/
theorem C9_linked_row_invariants (meta : List MetaRow) (fs : PyFS) (root : String)
    (hwf : ∀ e ∈ PyFS.dirs fs, ∀ name ∈ e.2, '/' ∉ name.toList) :
    ∀ r ∈ (build_links_like_group meta fs root).1,
      LinkedRow.images r ≠ [] ∧
      List.Pairwise pyLe (LinkedRow.images r) ∧
      LinkedRow.image_count r = (LinkedRow.images r).length ∧
      LinkedRow.images r =
        (find_matching_files_in_year fs root (LinkedRow.year r)
          (LinkedRow.base_prefix r)).map ospBasename ∧
      find_matching_files_in_year fs root (LinkedRow.year r) (LinkedRow.base_prefix r)
        ≠ [] := by
  rw [build_eq_loop]
  intro r hr
  obtain ⟨-, himg, hne, hcount, -⟩ :=
    buildLoop_rows_shape fs root (buildSrcMap meta) (seriesOf meta) [] r hr
  have hfind_ne : find_matching_files_in_year fs root (LinkedRow.year r)
      (LinkedRow.base_prefix r) ≠ [] := by
    intro he
    rw [he] at hne
    exact absurd hne (by simp)
  refine ⟨?_, ?_, ?_, himg, hfind_ne⟩
  · rw [himg]
    intro he
    exact hfind_ne (List.map_eq_nil_iff.mp he)
  · rw [himg]
    apply pairwise_basenames (ospJoin root (LinkedRow.year r))
    · exact find_matching_sorted fs root (LinkedRow.year r) (LinkedRow.base_prefix r)
    · intro p hp
      obtain ⟨name, hnmem, hpe⟩ :=
        find_matching_form fs root (LinkedRow.year r) (LinkedRow.base_prefix r) p hp
      exact ⟨name, hpe, listdir_no_slash fs hwf _ name hnmem⟩
  · rw [hcount, himg, List.length_map]

/-- The concrete filesystem used by the C9 witness. -/
def fsWitness : PyFS :=
  { dirs := [("root/1997",
      ["1-1997-1063-000.jpg", "1-1997-1063-001.jpg", "2-1997-9999-000.jpg"])],
    files := ["root/1997/1-1997-1063-000.jpg", "root/1997/1-1997-1063-001.jpg",
      "root/1997/2-1997-9999-000.jpg"] }

/-- The concrete input rows used by the C9 witness. -/
def metaWitness : List MetaRow :=
  [{ obj_id_raw := .str "1 / 1997 / 1063 0", source_file := "a.xls" }]

/-- Witness for C9 on the concrete scenario from the specification. -/
theorem C9_linked_row_invariants_witness :
    (∀ e ∈ PyFS.dirs fsWitness, ∀ name ∈ e.2, '/' ∉ name.toList) ∧
    (∀ r ∈ (build_links_like_group metaWitness fsWitness "root").1,
      LinkedRow.images r ≠ [] ∧
      List.Pairwise pyLe (LinkedRow.images r) ∧
      LinkedRow.image_count r = (LinkedRow.images r).length ∧
      LinkedRow.images r =
        (find_matching_files_in_year fsWitness "root" (LinkedRow.year r)
          (LinkedRow.base_prefix r)).map ospBasename ∧
      find_matching_files_in_year fsWitness "root" (LinkedRow.year r)
        (LinkedRow.base_prefix r) ≠ []) :=
  ⟨by decide, C9_linked_row_invariants metaWitness fsWitness "root" (by decide)⟩

/-- C10 counterexample: a non-null, non-string identifier (e.g. a numeric
cell) survives `dropna`, fails `isinstance(str)` inside the parser, and is
recorded as a parse-failure Miss — so it is not true that only
string-valued identifiers are recorded as Misses. -/
theorem C10_counterexample :
    (build_links_like_group [{ obj_id_raw := PyCell.other 0, source_file := "a.xls" }]
      { dirs := [], files := [] } "root").2 =
      [{ obj_id_raw := PyCell.other 0, year := none, base_prefix := none,
         reason := reasonNoPattern }] ∧
    PyCell.isStr (PyCell.other 0) = false :=
  ⟨by decide, by decide⟩

theorem map_obj_filter_nan (meta : List MetaRow) :
    (meta.filter (fun r => MetaRow.obj_id_raw r ≠ PyCell.nan)).map MetaRow.obj_id_raw =
      (meta.map MetaRow.obj_id_raw).filter (fun c => c ≠ PyCell.nan) := by
  rw [List.filter_map]
  rfl

theorem dropna_filter_nan (l : List PyCell) :
    dropna (l.filter (fun c => c ≠ PyCell.nan)) = dropna l := by
  unfold dropna
  rw [List.filter_filter]
  simp

theorem seriesOf_filter_nan (meta : List MetaRow) :
    seriesOf (meta.filter (fun r => MetaRow.obj_id_raw r ≠ PyCell.nan)) = seriesOf meta := by
  unfold seriesOf
  rw [map_obj_filter_nan, dropna_filter_nan]

theorem srcFold_filter_nan (meta : List MetaRow) :
    ∀ m0, (meta.filter (fun r => MetaRow.obj_id_raw r ≠ PyCell.nan)).foldl srcStep m0 =
      meta.foldl srcStep m0 := by
  induction meta with
  | nil => intro m0; rfl
  | cons r t ih =>
    intro m0
    by_cases h : MetaRow.obj_id_raw r ≠ PyCell.nan
    · simp only [List.filter_cons, decide_eq_true h, if_true, List.foldl_cons]
      exact ih (srcStep m0 r)
    · have hnan : MetaRow.obj_id_raw r = PyCell.nan := Decidable.of_not_not h
      have hstep : srcStep m0 r = m0 := by
        unfold srcStep
        rw [show keyOfCell (MetaRow.obj_id_raw r) = none by
          rw [hnan]
          rfl]
      simp only [List.filter_cons, decide_eq_false h, Bool.false_eq_true, if_false,
        List.foldl_cons, hstep]
      exact ih m0

theorem buildSrcMap_filter_nan (meta : List MetaRow) :
    buildSrcMap (meta.filter (fun r => MetaRow.obj_id_raw r ≠ PyCell.nan)) =
      buildSrcMap meta := by
  unfold buildSrcMap
  exact srcFold_filter_nan meta []

theorem nubFirstAux_subset : ∀ (l : List PyCell) (seen : List PyCell) (v : PyCell),
    v ∈ nubFirstAux seen l → v ∈ l := by
  intro l
  induction l with
  | nil => intro seen v hv; exact absurd hv (by simp [nubFirstAux])
  | cons x xs ih =>
    intro seen v hv
    unfold nubFirstAux at hv
    by_cases hx : x ∈ seen
    · rw [if_pos hx] at hv
      exact List.mem_cons_of_mem _ (ih seen v hv)
    · rw [if_neg hx] at hv
      rcases List.mem_cons.mp hv with rfl | hv
      · exact List.mem_cons_self _ _
      · exact List.mem_cons_of_mem _ (ih (x :: seen) v hv)

theorem stripCell_ne_nan (c : PyCell) (h : c ≠ PyCell.nan) : stripCell c ≠ PyCell.nan := by
  cases c with
  | str s => simp [stripCell]
  | nan => exact absurd rfl h
  | other t => simp [stripCell]

theorem seriesOf_mem_ne_nan (meta : List MetaRow) (v : PyCell) (h : v ∈ seriesOf meta) :
    v ≠ PyCell.nan := by
  unfold seriesOf nubFirst at h
  have hv := nubFirstAux_subset _ [] v h
  obtain ⟨c, hc, rfl⟩ := List.mem_map.mp hv
  have hcn : c ≠ PyCell.nan := by
    have := List.mem_filter.mp hc
    simpa using this.2
  exact stripCell_ne_nan c hcn

/-- C10 (amended): null (`NaN`) rows contribute nothing — removing them
from the input leaves the output unchanged, and no Miss carries a null
identifier; but it is non-string rather than non-null values that are
filtered at parse time, so every LinkedGroup representative is a string
while a non-null, non-string identifier is recorded as a parse-failure
Miss (see the counterexample). -/
theorem C10_amended_nan_rows_dropped (meta : List MetaRow) (fs : PyFS) (root : String) :
    build_links_like_group meta fs root =
      build_links_like_group (meta.filter (fun r => MetaRow.obj_id_raw r ≠ PyCell.nan))
        fs root ∧
    (∀ m ∈ (build_links_like_group meta fs root).2, MissRow.obj_id_raw m ≠ PyCell.nan) ∧
    (∀ r ∈ (build_links_like_group meta fs root).1,
      PyCell.isStr (LinkedRow.obj_id_raw r) = true) := by
  refine ⟨?_, ?_, ?_⟩
  · rw [build_eq_loop, build_eq_loop, seriesOf_filter_nan, buildSrcMap_filter_nan]
  · intro m hm
    rw [build_eq_loop] at hm
    have hsub := (buildLoop_sublist fs root (buildSrcMap meta) (seriesOf meta) []).2
    have hmem : MissRow.obj_id_raw m ∈ seriesOf meta :=
      hsub.subset (List.mem_map_of_mem MissRow.obj_id_raw hm)
    exact seriesOf_mem_ne_nan meta _ hmem
  · intro r hr
    rw [build_eq_loop] at hr
    obtain ⟨hparse, -, -, -, -⟩ :=
      buildLoop_rows_shape fs root (buildSrcMap meta) (seriesOf meta) [] r hr
    cases hobj : LinkedRow.obj_id_raw r with
    | str s => rfl
    | nan => rw [hobj] at hparse; exact absurd hparse (by simp [parse_object_number])
    | other t => rw [hobj] at hparse; exact absurd hparse (by simp [parse_object_number])

/-- The concrete miss row produced by the C7 witness input. -/
def missWitness : MissRow :=
  { obj_id_raw := PyCell.str "hello", year := none, base_prefix := none,
    reason := reasonNoPattern }

/-- The concrete input rows of the C7 witness. -/
def metaWitnessC7 : List MetaRow :=
  [{ obj_id_raw := PyCell.str "hello", source_file := "a.xls" }]

/-- The empty filesystem used by the C7 witness. -/
def fsEmpty : PyFS := { dirs := [], files := [] }

/-- Witness for the amended C7 at a concrete unparseable identifier. -/
theorem C7_amended_miss_reasons_witness :
    missWitness ∈ (build_links_like_group metaWitnessC7 fsEmpty "root").2 ∧
    ((MissRow.year missWitness = none ∧ MissRow.base_prefix missWitness = none ∧
      MissRow.reason missWitness = reasonNoPattern ∧
      parse_object_number (MissRow.obj_id_raw missWitness) = none) ∨
     (∃ y b, MissRow.year missWitness = some y ∧ MissRow.base_prefix missWitness = some b ∧
      MissRow.reason missWitness = reasonNoFiles y b ∧
      parse_object_number (MissRow.obj_id_raw missWitness) =
        some { year := y, base_prefix := b } ∧
      find_matching_files_in_year fsEmpty "root" y b = [])) :=
  ⟨by decide,
   C7_amended_miss_reasons metaWitnessC7 fsEmpty "root" missWitness (by decide)⟩
